import Mathlib

/-!
Verification development for the reaction-set reduction and gapfilling
orchestration layer of ModelSEEDpy (`modelseedpy/core/msmodelutl.py` and
`modelseedpy/core/msgapfill.py`).

The LP/MILP solver is external to the repository; following the source's
contract it is modelled as an abstract oracle mapping the current model
state (reaction bounds, objective, objective direction, medium) to a
solver status and an objective value.  Bounds are rationals.  The medium
is modelled as an abstract identifier stored in the model state, exactly
the role `KBaseMediaPkg.build_package` plays for the functions verified
here (the package records `current_media` and configures the solver
input; the oracle reads it).  Attribute caching (`get_attributes` /
`save_attributes`) is a pure report per the design and is not modelled.
-/

namespace MSeed

/-- Pointwise update of a rational-valued map over reaction ids. -/
def updQ (f : Nat → ℚ) (i : Nat) (v : ℚ) : Nat → ℚ :=
  fun j => if j = i then v else f j

theorem updQ_same (f : Nat → ℚ) (i : Nat) (v : ℚ) : updQ f i v i = v := by
  simp [updQ]

theorem updQ_other (f : Nat → ℚ) (i : Nat) (v : ℚ) {j : Nat} (h : j ≠ i) :
    updQ f i v j = f j := by
  simp [updQ, h]

theorem updQ_self (f : Nat → ℚ) (i : Nat) : updQ f i (f i) = f := by
  funext j
  by_cases h : j = i <;> simp [updQ, h]

/-- Model state as the reduction layer sees it: per-reaction lower and
upper bounds (`reaction.lower_bound` / `reaction.upper_bound`), the
current objective expression (abstracted to an id), its direction
(`objMax = true` for "max"), and the currently built medium
(`KBaseMediaPkg.current_media`, `none` when no medium was ever built). -/
structure MState where
  lb : Nat → ℚ
  ub : Nat → ℚ
  obj : Nat
  objMax : Bool
  media : Option Nat

theorem MState.eq_of_fields {s t : MState} (hlb : ∀ r, s.lb r = t.lb r)
    (hub : ∀ r, s.ub r = t.ub r) (ho : s.obj = t.obj)
    (hd : s.objMax = t.objMax) (hm : s.media = t.media) : s = t := by
  cases s; cases t
  simp only [MState.mk.injEq]
  exact ⟨funext hlb, funext hub, ho, hd, hm⟩

/-- Result of one `slim_optimize` / `optimize` call of the external
solver: whether the status is "optimal", and the objective value. -/
structure OracleRes where
  optimal : Bool
  value : ℚ

/-- The external LP/MILP solver. -/
def Oracle : Type := MState → OracleRes

/-- A test condition dict: media, objective, is_max_threshold, threshold,
and the optional "change" flag. -/
structure Cond where
  media : Nat
  objective : Nat
  is_max_threshold : Bool
  threshold : ℚ
  change : Bool

/-- Mutable `MSModelUtil` instance state used by the test machinery:
the wrapped model, `self.test_objective`, `self.score`, and
`self.breaking_reaction` (the latter holds a reaction object; we keep
its id). -/
structure Utl where
  s : MState
  test_objective : Option ℚ
  score : ℚ
  breaking_reaction : Option Nat

/-- Python truthiness of the `self.test_objective` field (`None` and
`0.0` are falsy). -/
def pyTruthy : Option ℚ → Bool
  | none => false
  | some v => decide (v ≠ 0)

/-- `MSModelUtil.apply_test_condition`: sets the objective, sets the
objective direction to "max" (the `else` branch that would set "min" is
commented out in the source), and builds the condition's medium. -/
def apply_test_condition (cond : Cond) (s : MState) : MState :=
  { s with obj := cond.objective, objMax := true, media := some cond.media }

/-- `MSModelUtil.test_single_condition` (the `analyze_failures` branch,
which is off by default and never enabled by any caller in scope, is not
modelled).  Computes the possibly change-adjusted value, stores it in
`self.score`, returns `False` on non-optimal status, `False` when the
threshold comparison fails (value ≥ threshold in max mode, value ≤
threshold otherwise), else records `self.test_objective` and returns
`True`. -/
def test_single_condition (oracle : Oracle) (cond : Cond) (applyCond : Bool)
    (u : Utl) : Bool × Utl :=
  let s := if applyCond then apply_test_condition cond u.s else u.s
  let res := oracle s
  let value :=
    if cond.change ∧ pyTruthy u.test_objective then
      res.value - u.test_objective.getD 0
    else res.value
  let u1 : Utl := { u with s := s, score := value }
  if res.optimal = false then (false, u1)
  else if cond.threshold ≤ value ∧ cond.is_max_threshold = true then (false, u1)
  else if value ≤ cond.threshold ∧ cond.is_max_threshold = false then (false, u1)
  else (true, { u1 with test_objective := some res.value })

/-- The possibly change-adjusted objective value `test_single_condition`
compares against the threshold. -/
def adjustedValue (oracle : Oracle) (cond : Cond) (applyCond : Bool)
    (u : Utl) : ℚ :=
  let s := if applyCond then apply_test_condition cond u.s else u.s
  if cond.change ∧ pyTruthy u.test_objective then
    (oracle s).value - u.test_objective.getD 0
  else (oracle s).value

/-- A reaction-list entry `[reaction_object, direction]`; `dir = true`
for the `">"` direction (upper bound), `false` for `"<"` (lower bound). -/
structure RItem where
  rid : Nat
  dir : Bool
deriving DecidableEq

/-- A filtered entry, mirroring the source's in-place growth of a list
item to `[reaction, direction, original_bound, score]`. -/
structure FItem where
  rid : Nat
  dir : Bool
  bound : ℚ
  score : ℚ
deriving DecidableEq

/-- Bound read in the item's tested direction. -/
def getBound (it : RItem) (s : MState) : ℚ :=
  if it.dir then s.ub it.rid else s.lb it.rid

/-- Bound write in the item's tested direction. -/
def setBound (it : RItem) (v : ℚ) (s : MState) : MState :=
  if it.dir then { s with ub := updQ s.ub it.rid v }
  else { s with lb := updQ s.lb it.rid v }

/-- Knock out the item's direction (`upper_bound = 0` resp.
`lower_bound = 0`). -/
def zeroItem (it : RItem) (s : MState) : MState := setBound it 0 s

/-- Knock out a whole list of items in order. -/
def zeroItems (L : List RItem) (s : MState) : MState :=
  L.foldl (fun a it => zeroItem it a) s

/-- Restore a list of items to previously saved bounds, in order. -/
def restoreItems (L : List RItem) (saved : List ℚ) (s : MState) : MState :=
  (L.zip saved).foldl (fun a p => setBound p.1 p.2 a) s

/-- The positive-growth loop of `binary_expansion_test`'s base case:
each positive-growth condition is tested with `apply_condition=True`,
short-circuiting on the first failure. -/
def posGrowthLoop (oracle : Oracle) : List Cond → Utl → Bool × Utl
  | [], u => (true, u)
  | c :: rest, u =>
    let t := test_single_condition oracle c true u
    if t.1 then posGrowthLoop oracle rest t.2 else (false, t.2)

/-- Recursion core of `MSModelUtil.binary_expansion_test`.  The source
recurses on list halves; we drive the same recursion with a fuel
argument set to the list length by the wrapper below (each recursive
call halves the list, so `length ≤ fuel` keeps every call supplied; the
fuel-exhausted arm is unreachable from the wrapper).  On an empty list
whose entry test fails the source recurses forever; that arm returns the
entry result and is likewise unreachable from `reaction_expansion_test`.
Steps mirror the source: run the full test on the current bounds and
return empty if it passes; single-item base case knocks the item out,
runs the positive-growth re-validation (restoring the current condition
afterwards when any positive-growth conditions exist), and either
accepts the item (left knocked out, original bound and `self.score`
recorded) or restores it and raises `self.breaking_reaction`; the
recursive case saves all bounds, knocks out the second half, recurses
into the first half, aborts if a breaking reaction was raised, else
restores the second half to the saved bounds and recurses into it. -/
def binaryAux (oracle : Oracle) (cond : Cond) (pos : List Cond) :
    Nat → List RItem → Utl → List FItem × Utl
  | fuel, L, u =>
    let t := test_single_condition oracle cond false u
    if t.1 then ([], t.2)
    else
      match fuel, L with
      | _, [] => ([], t.2)
      | _, [it] =>
        let saved := getBound it t.2.s
        let u2 : Utl := { t.2 with s := zeroItem it t.2.s }
        let pg := posGrowthLoop oracle pos u2
        let u3 : Utl :=
          if 0 < pos.length then
            { pg.2 with s := apply_test_condition cond pg.2.s }
          else pg.2
        if pg.1 then ([⟨it.rid, it.dir, saved, u3.score⟩], u3)
        else ([], { u3 with s := setBound it saved u3.s,
                            breaking_reaction := some it.rid })
      | 0, _ => ([], t.2)
      | fuel + 1, L =>
        let m := L.length / 2
        let L1 := L.take m
        let L2 := L.drop m
        let saved2 := L2.map (fun it => getBound it t.2.s)
        let r1 := binaryAux oracle cond pos fuel L1
          { t.2 with s := zeroItems L2 t.2.s }
        if r1.2.breaking_reaction ≠ none then r1
        else
          let r2 := binaryAux oracle cond pos fuel L2
            { r1.2 with s := restoreItems L2 saved2 r1.2.s }
          (r1.1 ++ r2.1, r2.2)

/-- `MSModelUtil.binary_expansion_test` (`depth` is log-only in the
source and omitted). -/
def binary_expansion_test (oracle : Oracle) (cond : Cond) (pos : List Cond)
    (L : List RItem) (u : Utl) : List FItem × Utl :=
  binaryAux oracle cond pos L.length L u

/-- `MSModelUtil.check_if_solution_exists`: save and zero the bound of
every listed item, run the condition test (with `apply_condition` left
at its default `True`), restore every saved bound, and return the test
result. -/
def check_if_solution_exists (oracle : Oracle) (L : List RItem) (cond : Cond)
    (u : Utl) : Bool × Utl :=
  let saved := L.map (fun it => getBound it u.s)
  let t := test_single_condition oracle cond true { u with s := zeroItems L u.s }
  (t.1, { t.2 with s := restoreItems L saved t.2.s })

/-- Delete the first reaction-list entry whose reaction object matches
the breaking reaction (`del reaction_list[i]` after an id match);
`none` when no entry matches (in which case the source deletes
nothing). -/
def removeFirstRid (rid : Nat) : List RItem → Option (List RItem)
  | [] => none
  | it :: rest =>
    if it.rid = rid then some rest
    else (removeFirstRid rid rest).map (fun l => it :: l)

/-- `for item in new_filtered: if item not in filtered_list:
filtered_list.append(item)`. -/
def mergeDedup (acc new : List FItem) : List FItem :=
  new.foldl (fun a it => if it ∈ a then a else a ++ [it]) acc

/-- Knock out the direction of each filtered entry (the re-knockout of
newly filtered reactions after the `with` block expires). -/
def zeroFItems (F : List FItem) (s : MState) : MState :=
  F.foldl (fun a f => zeroItem ⟨f.rid, f.dir⟩ a) s

/-- The `while not done` loop of `reaction_expansion_test` (binary
branch): run `binary_expansion_test`, merge its output into the filtered
list, finish when no breaking reaction was raised; otherwise delete the
breaking reaction from the searchable list, re-verify that a solution
exists (returning the no-solution sentinel otherwise — modelled as
`none`, upon which the caller replays the `with`-block rollback), clear
`self.breaking_reaction`, and repeat.  Each repeat removes one list
entry, so list length bounds the iteration count; the fuel-exhausted arm
(reachable only if the source were to loop forever) reports the current
accumulation. -/
def expansionWhile (oracle : Oracle) (cond : Cond) (pos : List Cond) :
    Nat → List RItem → List FItem → Utl →
    Option (List FItem × List FItem × List RItem × Utl)
  | 0, rl, filtered, u => some ([], filtered, rl, u)
  | fuel + 1, rl, filtered, u =>
    let r := binary_expansion_test oracle cond pos rl u
    let filtered2 := mergeDedup filtered r.1
    match r.2.breaking_reaction with
    | none => some (r.1, filtered2, rl, r.2)
    | some rid =>
      let rl2 := (removeFirstRid rid rl).getD rl
      let chk := check_if_solution_exists oracle rl2 cond r.2
      if chk.1 then
        expansionWhile oracle cond pos fuel rl2 filtered2
          { chk.2 with breaking_reaction := none }
      else none

/-- Per-condition loop of `MSModelUtil.reaction_expansion_test`
(binary-search branch): check that a solution exists with all candidates
knocked out (returning the `None` sentinel otherwise), then inside a
`with model` scope apply the condition and run the expansion loop; the
scope's exit rolls the model back to its entry state, after which the
newly filtered reactions of the final pass are knocked out again.
Attribute-cache writes (`gf_filter`) are report-only and not modelled. -/
def reactionExpansionGo (oracle : Oracle) (pos : List Cond) :
    List Cond → List RItem → List FItem → Utl → Option (List FItem) × Utl
  | [], _, filtered, u => (some filtered, u)
  | cond :: rest, rl, filtered, u =>
    let chk := check_if_solution_exists oracle rl cond u
    if chk.1 = false then (none, chk.2)
    else
      let snap := chk.2.s
      let u1 : Utl := { chk.2 with s := apply_test_condition cond chk.2.s }
      match expansionWhile oracle cond pos (rl.length + 1) rl filtered u1 with
      | none => (none, { u1 with s := snap })
      | some (newf, filtered2, rl2, u2) =>
        reactionExpansionGo oracle pos rest rl2 filtered2
          { u2 with s := zeroFItems newf snap }

/-- Stable insertion used to model Python's stable `sorted` by
reliability score (ascending). -/
def insertByScore (f : RItem → ℚ) (it : RItem) : List RItem → List RItem
  | [] => [it]
  | x :: xs => if f it < f x then it :: x :: xs else x :: insertByScore f it xs

/-- Python's stable ascending `sorted(reaction_list, key=score)`. -/
def sortByScore (f : RItem → ℚ) (L : List RItem) : List RItem :=
  L.foldr (insertByScore f) []

/-- `MSModelUtil.reaction_expansion_test`, binary-search branch (the
`binary_search=False` branch calls `linear_expansion_test`, which
passes `positive_growth` to a function without that parameter and so
cannot run; it is outside the claims and not modelled).  Reliability
scores (`assign_reliability_scores_to_reactions`) are supplied as an
abstract score map used only to pre-sort the search order. -/
def reaction_expansion_test (oracle : Oracle) (L : List RItem)
    (conds : List Cond) (pos : List Cond) (resort : Bool)
    (scores : RItem → ℚ) (u0 : Utl) : Option (List FItem) × Utl :=
  let u : Utl := { u0 with breaking_reaction := none }
  let rl := if resort then sortByScore scores L else L
  reactionExpansionGo oracle pos conds rl [] u

/-- A standardized gapfilling-solution entry
`[reaction_id, direction, "new"|"reversed"]` as produced by
`convert_solution_to_list` (`tag = true` for `"new"`). -/
structure SItem where
  rid : Nat
  dir : Bool
  tag : Bool
deriving DecidableEq

/-- An entry of `test_solution`'s `unneeded` list:
`[rxn_id, direction, tag, original_bound, other_original_bound]`. -/
structure UItem where
  rid : Nat
  dir : Bool
  tag : Bool
  bound : ℚ
  other : Option ℚ
deriving DecidableEq

/-- `MSModelUtil.find_item_in_solution`. -/
def find_item_in_solution (lst : List SItem) (rid : Nat) (dir : Bool)
    (ignoreDir : Bool) : Bool :=
  lst.any (fun it => (it.rid = rid ∧ it.dir = dir) ∨ (ignoreDir ∧ it.rid = rid))

/-- Accumulator of the per-triple knockout loop in `test_solution`:
current model state, the `needed` flag, and the `original_bound` /
`other_original_bound` locals (`original_bound` is overwritten by every
triple iteration; `other_original_bound` is reset once per solution
reaction and only overwritten when the opposite bound points into the
knocked direction). -/
structure TsAcc where
  s : MState
  needed : Bool
  bound : Option ℚ
  other : Option ℚ

/-- One (target, media, threshold) iteration of `test_solution`'s inner
loop for one solution reaction: re-apply media and objective only when
there is more than one target (with a single target they were applied
before the reaction loop), then knock the reaction out in its gapfilled
direction — saving `original_bound`, and zeroing/saving the opposite
bound too when it points into the knocked direction — and flag the
reaction as needed when the re-solved objective drops below the triple's
threshold. -/
def tsTriple (oracle : Oracle) (it : SItem) (multi : Bool)
    (acc : TsAcc) (tmh : Nat × Nat × ℚ) : TsAcc :=
  let s0 := if multi then
      { acc.s with media := some tmh.2.1, obj := tmh.1 } else acc.s
  let bound := if it.dir then s0.ub it.rid else s0.lb it.rid
  let other :=
    if it.dir then (if 0 < s0.lb it.rid then some (s0.lb it.rid) else acc.other)
    else (if s0.ub it.rid < 0 then some (s0.ub it.rid) else acc.other)
  let s1 :=
    if it.dir then
      { s0 with ub := updQ s0.ub it.rid 0,
                lb := if 0 < s0.lb it.rid then updQ s0.lb it.rid 0 else s0.lb }
    else
      { s0 with lb := updQ s0.lb it.rid 0,
                ub := if s0.ub it.rid < 0 then updQ s0.ub it.rid 0 else s0.ub }
  let objective := (oracle s1).value
  { s := s1, needed := acc.needed || decide (objective < tmh.2.2),
    bound := some bound, other := other }

/-- Restore one solution reaction from saved bounds (used both for a
needed reaction right after its triple loop and for unneeded reactions
at the end). -/
def tsRestore (rid : Nat) (dir : Bool) (bound : ℚ) (other : Option ℚ)
    (s : MState) : MState :=
  if dir then
    { s with ub := updQ s.ub rid bound,
             lb := match other with
                   | some v => updQ s.lb rid v
                   | none => s.lb }
  else
    { s with lb := updQ s.lb rid bound,
             ub := match other with
                   | some v => updQ s.ub rid v
                   | none => s.ub }

/-- Process one solution reaction of `test_solution`: run every
(target, media, threshold) triple, then either leave it knocked out and
record it as unneeded, or restore it when needed. -/
def tsItem (oracle : Oracle) (triples : List (Nat × Nat × ℚ)) (multi : Bool)
    (s : MState) (it : SItem) : MState × Option UItem :=
  let acc := triples.foldl (tsTriple oracle it multi)
    { s := s, needed := false, bound := none, other := none }
  if acc.needed then
    (tsRestore it.rid it.dir (acc.bound.getD 0) acc.other acc.s, none)
  else
    (acc.s, some ⟨it.rid, it.dir, it.tag, acc.bound.getD 0, acc.other⟩)

/-- Output of `test_solution`: the unneeded list, the final model state,
and the ids passed to `model.remove_reactions`. -/
structure TsOut where
  unneeded : List UItem
  s : MState
  removed : List Nat

/-- `MSModelUtil.test_solution` (solution already in list form; the
dict-to-list conversion is input normalization).  Saves the current
objective and medium, applies each triple's medium and objective once to
record initial objectives (log-only values), sequentially tests each
solution reaction — unneeded reactions are deliberately left knocked out
while later reactions are tested — then, when
`remove_unneeded_reactions` is false, restores the bounds of the
unneeded reactions from their recorded values; otherwise restores only
those on the do-not-remove list and schedules fully zero-bounded,
unprotected ones for `remove_reactions`.  Finally restores the original
objective, and the original medium when one was set (`if current_media:`).
With several triples the recorded `original_bound` values come from the
last triple iteration — after the first triple the reaction is already
knocked out, so zero is recorded and later restored. -/
def test_solution (oracle : Oracle) (sol : List SItem)
    (targets medias : List Nat) (thresholds : List ℚ)
    (remove_unneeded_reactions : Bool) (do_not_remove_list : List SItem)
    (s0 : MState) : TsOut :=
  let current_objective := s0.obj
  let current_dir := s0.objMax
  let current_media := s0.media
  let triples := targets.zip (medias.zip thresholds)
  let sInit := triples.foldl
    (fun a tmh => { a with media := some tmh.2.1, obj := tmh.1 }) s0
  let multi := decide (1 < targets.length)
  let step := fun (p : MState × List UItem) (it : SItem) =>
    let r := tsItem oracle triples multi p.1 it
    (r.1, match r.2 with | some x => p.2 ++ [x] | none => p.2)
  let main := sol.foldl step (sInit, [])
  let afterUnneeded :=
    if remove_unneeded_reactions = false then
      (main.2.foldl (fun a x => tsRestore x.rid x.dir x.bound x.other a) main.1,
       ([] : List Nat))
    else
      main.2.foldl (fun (p : MState × List Nat) x =>
        if find_item_in_solution do_not_remove_list x.rid x.dir false then
          (tsRestore x.rid x.dir x.bound x.other p.1, p.2)
        else if p.1.lb x.rid = 0 ∧ p.1.ub x.rid = 0 ∧
            find_item_in_solution do_not_remove_list x.rid x.dir true = false then
          (p.1, p.2 ++ [x.rid])
        else (p.1, p.2)) (main.1, [])
  let mediaEnd := if current_media ≠ none then current_media
                  else afterUnneeded.1.media
  let sEnd : MState :=
    { afterUnneeded.1 with
      obj := current_objective,
      objMax := current_dir,
      media := mediaEnd }
  { unneeded := main.2, s := sEnd, removed := afterUnneeded.2 }

/-!
`MSGapfill` orchestration (`msgapfill.py`).  The gapfilling LP builder
(`GapfillingPkg`) and the solver are external collaborators per the
design; their operations are supplied through an environment record.
The claims settled against this part concern only the control flow of
the orchestrator: which paths return the `None` sentinel, and which
raise. -/

/-- A raw gapfilling solution: the `new` and `reversed` reaction maps
plus the media/target/minobjective/binary_check fields attached before
returning. -/
structure GfSol where
  newR : List (Nat × Bool)
  revR : List (Nat × Bool)
  media : Nat
  target : Nat
  minobj : ℚ
  bc : Bool
deriving DecidableEq

/-- One accepted row of `test_and_adjust_gapfilling_conditions`
output. -/
structure MTT where
  media : Nat
  target : Nat
  threshold : ℚ
deriving DecidableEq

/-- Integration policy (`gapfilling_mode`). -/
inductive GfMode
  | independent
  | sequential
  | global
deriving DecidableEq

/-- Environment of external collaborators used by the orchestrator:
database feasibility tests (parameterized by media, target, and the
`before_filtering` flag, so pre- and post-filter answers can differ),
the gapfilling LP solve status and solution per media/target, the
optional test-condition re-solve loop, the binary minimality check, the
merged (Global) model's solve status and unified solution, and the
integration step (whose rich effect on the live model is abstracted to
the entry stored in the solution dictionary). -/
structure GfEnv where
  testDb : Nat → Nat → Bool → Bool
  solveOptimal : Nat → Nat → Bool
  computeSolution : Nat → Nat → List (Nat × Bool) × List (Nat × Bool)
  hasTestConditions : Bool
  runTestConditions : GfSol → Option GfSol
  binaryCheckSol : GfSol → GfSol
  globalOptimal : List MTT → Bool
  globalSolution : List MTT → List (Nat × Bool) × List (Nat × Bool)
  integrate : GfSol → GfMode → Bool → Nat

/-- `MSGapfill.run_gapfilling` with target and minimum objective already
resolved (the caller resolves the `None` defaults): test the database
(with `before_filtering=prefilter`) and return the `None` sentinel on
failure; prefilter and re-test, returning `None` on failure; solve the
gapfilling LP once and return `None` on non-optimal status; compute the
solution; run the test-condition loop when test conditions exist,
returning `None` when it fails; optionally run the binary check; attach
media/target/minobjective/binary_check and return. -/
def run_gapfilling (env : GfEnv) (media target : Nat) (minimum_obj : ℚ)
    (binary_check prefilter : Bool) : Option GfSol :=
  if env.testDb media target prefilter = false then none
  else if prefilter ∧ env.testDb media target false = false then none
  else if env.solveOptimal media target = false then none
  else
    let raw := env.computeSolution media target
    let sol0 : GfSol :=
      { newR := raw.1, revR := raw.2, media := media, target := target,
        minobj := minimum_obj, bc := binary_check }
    match (if env.hasTestConditions then env.runTestConditions sol0
           else some sol0) with
    | none => none
    | some sol1 =>
      let sol2 := if binary_check then env.binaryCheckSol sol1 else sol1
      some { sol2 with media := media, target := target,
                       minobj := minimum_obj, bc := binary_check }

/-- `MSGapfill.test_and_adjust_gapfilling_conditions`: keep the
media/target/threshold rows that pass the unfiltered database test;
when prefiltering, filter the database and keep only the rows that still
pass it. -/
def test_and_adjust_gapfilling_conditions (env : GfEnv)
    (medias targets : List Nat) (thresholds : List ℚ) (prefilter : Bool) :
    List MTT :=
  let rows := (medias.zip (targets.zip thresholds)).filterMap
    (fun p => if env.testDb p.1 p.2.1 true then
        some (⟨p.1, p.2.1, p.2.2⟩ : MTT) else none)
  if prefilter then
    rows.filter (fun r => env.testDb r.media r.target false)
  else rows

/-- `MSGapfill.run_global_gapfilling`: re-test and adjust the
conditions, returning the `None` sentinel when no media survives; build
and solve the merged multi-media problem once, returning `None` on
non-optimal status; otherwise return the unified solution computed from
the merged flux values (media/target fields are attached later by the
caller). -/
def run_global_gapfilling (env : GfEnv) (medias targets : List Nat)
    (thresholds : List ℚ) (binary_check prefilter : Bool) : Option GfSol :=
  let rows := test_and_adjust_gapfilling_conditions env medias targets
    thresholds prefilter
  if rows = [] then none
  else if env.globalOptimal rows = false then none
  else
    let raw := env.globalSolution rows
    some { newR := raw.1, revR := raw.2,
           media := (rows.headD ⟨0, 0, 0⟩).media,
           target := (rows.headD ⟨0, 0, 0⟩).target,
           minobj := (rows.headD ⟨0, 0, 0⟩).threshold, bc := false }

/-- `MSGapfill.run_multi_gapfill` control flow (sensitivity analysis is
a reporting side channel and not modelled; model backup for
`integrate_solutions=False` likewise).  Resolve per-media targets and
thresholds from the hash arguments, test and adjust conditions, and
return the `None` sentinel when no media survives.  In Independent or
Sequential mode run per-media gapfilling, skipping (without returning)
media whose solve yields `None`, integrating the rest.  In Global mode
run the merged gapfilling and then unconditionally call
`full_solution.copy()` on the result: when the merged solve returned the
`None` sentinel this raises `AttributeError` (`Except.error`), since the
source never checks `full_solution` for `None`; otherwise each surviving
media gets a copy of the unified solution integrated. -/
def run_multi_gapfill (env : GfEnv) (media_list : List Nat) (target : Nat)
    (target_hash : Nat → Option Nat) (minimum_objectives : Nat → Option ℚ)
    (default_minimum_objective : ℚ) (binary_check prefilter : Bool)
    (remove_unneeded_reactions : Bool) (mode : GfMode) :
    Except Unit (Option (List (Nat × Nat))) :=
  let targets := media_list.map (fun m => (target_hash m).getD target)
  let thresholds := media_list.map
    (fun m => (minimum_objectives m).getD default_minimum_objective)
  let rows := test_and_adjust_gapfilling_conditions env media_list targets
    thresholds prefilter
  if rows = [] then .ok none
  else
    let dict : List (Nat × Nat) :=
      match mode with
      | .global => []
      | m =>
        rows.foldl (fun acc r =>
          match run_gapfilling env r.media r.target r.threshold binary_check
              false with
          | none => acc
          | some sol =>
            acc ++ [(r.media, env.integrate sol m remove_unneeded_reactions)])
          []
    match mode with
    | .global =>
      match run_global_gapfilling env (rows.map MTT.media) (rows.map MTT.target)
          (rows.map MTT.threshold) binary_check false with
      | none => .error ()
      | some full =>
        .ok (some (rows.map (fun r =>
          (r.media,
           env.integrate
             { full with media := r.media, target := r.target,
                         minobj := r.threshold, bc := binary_check }
             .global false))))
    | _ => .ok (some dict)

/-!  Predicates used to state the claims, and concrete instances used by
counterexamples and witnesses. -/

/-- The (reaction id, direction) coordinate of a reaction-list entry. -/
def itKey (it : RItem) : Nat × Bool := (it.rid, it.dir)

/-- Read one bound coordinate: `(r, true)` is the upper bound, `(r,
false)` the lower bound. -/
def coordGet (k : Nat × Bool) (s : MState) : ℚ :=
  if k.2 then s.ub k.1 else s.lb k.1

/-- `t` is a bound-restriction of `s`: same objective, direction and
medium, and every reaction's feasible interval in `t` is contained in
the one in `s`. -/
def subState (t s : MState) : Prop :=
  t.obj = s.obj ∧ t.objMax = s.objMax ∧ t.media = s.media ∧
    ∀ r, s.lb r ≤ t.lb r ∧ t.ub r ≤ s.ub r

/-- The solver always reports an optimal status. -/
def alwaysOptimal (oracle : Oracle) : Prop := ∀ s, (oracle s).optimal = true

/-- LP-style monotonicity: restricting feasible intervals never
increases the reported objective value. -/
def monotoneOracle (oracle : Oracle) : Prop :=
  ∀ s t, subState t s → (oracle t).value ≤ (oracle s).value

/-- Sign-normal bounds: every lower bound is nonpositive and every upper
bound nonnegative, so a knockout (`bound = 0`) always restricts. -/
def normalBounds (s : MState) : Prop := ∀ r, s.lb r ≤ 0 ∧ 0 ≤ s.ub r

/-- Knock one solution reaction out in its gapfilled direction, with the
source's handling of an opposite bound pointing into the knocked
direction (a strictly positive lower bound for `">"`, a strictly
negative upper bound for `"<"` is zeroed as well). -/
def specKnock (it : SItem) (s : MState) : MState :=
  if it.dir then
    { s with ub := updQ s.ub it.rid 0,
             lb := if 0 < s.lb it.rid then updQ s.lb it.rid 0 else s.lb }
  else
    { s with lb := updQ s.lb it.rid 0,
             ub := if s.ub it.rid < 0 then updQ s.ub it.rid 0 else s.ub }

/-- Knock out a list of solution reactions in order. -/
def specKnockList (K : List SItem) (s : MState) : MState :=
  K.foldl (fun a i => specKnock i a) s

/-- Modelled from the amended claim for `test_solution`: sequential
cumulative classification over a single (target, media, threshold)
triple.  A reaction is unneeded exactly when, with every
previously-classified-unneeded reaction still knocked out and the
reaction itself knocked out on top of that, the objective stays at or
above the threshold; unneeded reactions join the knocked-out set for all
later reactions. -/
def seqUnneeded (oracle : Oracle) (th : ℚ) (sbase : MState) :
    List SItem → List SItem → List (Nat × Bool)
  | _, [] => []
  | K, it :: rest =>
    if th ≤ (oracle (specKnock it (specKnockList K sbase))).value then
      (it.rid, it.dir) :: seqUnneeded oracle th sbase (K ++ [it]) rest
    else seqUnneeded oracle th sbase K rest

/-- The solution-list entry recorded inside an unneeded entry. -/
def toS (x : UItem) : SItem := ⟨x.rid, x.dir, x.tag⟩

/-- An unneeded entry whose recorded restore data matches the base
state: `original_bound` is the base bound in the knocked direction and
`other_original_bound` is the opposite bound exactly when it pointed
into the knocked direction. -/
def goodU (sbase : MState) (x : UItem) : Prop :=
  x.bound = (if x.dir then sbase.ub x.rid else sbase.lb x.rid) ∧
  x.other = (if x.dir then
      (if 0 < sbase.lb x.rid then some (sbase.lb x.rid) else none)
    else (if sbase.ub x.rid < 0 then some (sbase.ub x.rid) else none))

/-- A model state with clean lower bounds, parameterized upper bounds,
objective 0 maximized-false, and no medium built. -/
def mkState (ubs : Nat → ℚ) : MState :=
  { lb := fun _ => 0, ub := ubs, obj := 0, objMax := false, media := none }

/-- Like `mkState` but with a medium (id 3) already built. -/
def mkStateM (ubs : Nat → ℚ) : MState :=
  { lb := fun _ => 0, ub := ubs, obj := 0, objMax := false, media := some 3 }

/-- A fresh `MSModelUtil` over `mkState ubs`. -/
def mkUtl (ubs : Nat → ℚ) : Utl :=
  { s := mkState ubs, test_objective := none, score := 0,
    breaking_reaction := none }

/-- Upper bounds opening reactions 1 and 2 at 100. -/
def ubTwo : Nat → ℚ := fun r => if r = 1 ∨ r = 2 then 100 else 0

/-- Upper bounds opening reactions 0..3 at 100. -/
def ubFour : Nat → ℚ := fun r => if r < 4 then 100 else 0

/-- Upper bounds opening reaction 0 at 100. -/
def ubOne : Nat → ℚ := fun r => if r = 0 then 100 else 0

/-- Scenario oracle of the breaking-reaction claim: objective 1.0
whenever R1 (reaction 1) is active in its gapfilled direction,
regardless of R2; 0.0 otherwise (in particular when both are zeroed). -/
def scOracle : Oracle := fun s =>
  { optimal := true, value := if 0 < s.ub 1 then 1 else 0 }

/-- Scenario condition {media: M1, objective: "biomass",
is_max_threshold: False, threshold: 1.0}. -/
def scCond : Cond :=
  { media := 0, objective := 0, is_max_threshold := false, threshold := 1,
    change := false }

/-- Non-monotone oracle for the minimality counterexample, over
candidate reactions A=0, B=1, C=2, D=3 (direction `">"`): the condition
value is 1 exactly when C is inactive, D is only active alongside B, and
A is only active alongside both B and D; 0 otherwise. -/
def nmOracle : Oracle := fun s =>
  let a := decide (0 < s.ub 0)
  let b := decide (0 < s.ub 1)
  let c := decide (0 < s.ub 2)
  let d := decide (0 < s.ub 3)
  { optimal := true,
    value := if !c && (!d || b) && (!a || (b && d)) then 1 else 0 }

/-- Growth condition (fail-low) with threshold 0 for the minimality
counterexample (the test passes exactly when the value is positive). -/
def nmCond : Cond :=
  { media := 0, objective := 0, is_max_threshold := false, threshold := 0,
    change := false }

/-- The candidate list A, B, C, D of the minimality counterexample. -/
def nmList : List RItem := [⟨0, true⟩, ⟨1, true⟩, ⟨2, true⟩, ⟨3, true⟩]

/-- Max-threshold-style oracle: value 1 when reaction 0 is active, else
0 (used where a candidate's presence breaks a max-threshold test). -/
def mtOracle : Oracle := fun s =>
  { optimal := true, value := if 0 < s.ub 0 then 1 else 0 }

/-- Max-threshold condition with threshold 1. -/
def mtCond : Cond :=
  { media := 0, objective := 0, is_max_threshold := true, threshold := 1,
    change := false }

/-- Max-threshold condition with threshold 2 (passes while the objective
stays below 2). -/
def mtCondHi : Cond :=
  { media := 0, objective := 0, is_max_threshold := true, threshold := 2,
    change := false }

/-- Oracle for the `test_solution` counterexample: objective 1 whenever
reaction 1 or reaction 2 is active, 0 when both are knocked out. -/
def orOracle : Oracle := fun s =>
  { optimal := true, value := if 0 < s.ub 1 ∨ 0 < s.ub 2 then 1 else 0 }

/-- Solution list [R1 ">", R2 ">"] (both tagged "new"). -/
def solTwo : List SItem := [⟨1, true, true⟩, ⟨2, true, true⟩]

/-- Constant oracle: always optimal with value 1. -/
def oneOracle : Oracle := fun _ => { optimal := true, value := 1 }

/-- Always-infeasible oracle (never optimal). -/
def infOracle : Oracle := fun _ => { optimal := false, value := 0 }

/-- Simple monotone oracle: the objective value is the sum of the upper
bounds of reactions 0 and 1. -/
def sumOracle : Oracle := fun s => { optimal := true, value := s.ub 0 + s.ub 1 }

/-- Orchestrator environment in which every database test passes and
every per-media solve is optimal, but the merged Global solve ends
non-optimal. -/
def crashEnv : GfEnv :=
  { testDb := fun _ _ _ => true, solveOptimal := fun _ _ => true,
    computeSolution := fun _ _ => ([], []), hasTestConditions := false,
    runTestConditions := fun s => some s, binaryCheckSol := fun s => s,
    globalOptimal := fun _ => false, globalSolution := fun _ => ([], []),
    integrate := fun _ _ _ => 0 }

/-!  Basic lemmas about the condition tester and bound bookkeeping. -/

theorem tsc_s_noapply (oracle : Oracle) (cond : Cond) (u : Utl) :
    (test_single_condition oracle cond false u).2.s = u.s := by
  simp only [test_single_condition, Bool.false_eq_true, if_false]
  split_ifs <;> rfl

theorem tsc_s_apply (oracle : Oracle) (cond : Cond) (u : Utl) :
    (test_single_condition oracle cond true u).2.s =
      apply_test_condition cond u.s := by
  simp only [test_single_condition]
  split_ifs <;> rfl

theorem tsc_breaking (oracle : Oracle) (cond : Cond) (ap : Bool) (u : Utl) :
    (test_single_condition oracle cond ap u).2.breaking_reaction =
      u.breaking_reaction := by
  simp only [test_single_condition]
  split_ifs <;> rfl

theorem tsc_fst_congr (oracle : Oracle) (cond : Cond) (ap : Bool) (u v : Utl)
    (hs : u.s = v.s) (ht : u.test_objective = v.test_objective) :
    (test_single_condition oracle cond ap u).1 =
      (test_single_condition oracle cond ap v).1 := by
  simp only [test_single_condition, hs, ht]
  split_ifs <;> rfl

theorem tsc_pass_iff (oracle : Oracle) (cond : Cond) (u : Utl)
    (hopt : (oracle u.s).optimal = true) (hmax : cond.is_max_threshold = true)
    (hch : cond.change = false) :
    (test_single_condition oracle cond false u).1 = true ↔
      (oracle u.s).value < cond.threshold := by
  simp only [test_single_condition, hch, hmax, hopt, Bool.false_eq_true,
    false_and, if_false, Bool.true_eq_false, and_false, and_true, ite_false,
    ite_true]
  constructor
  · intro h
    by_contra hc
    push_neg at hc
    simp [hc] at h
  · intro h
    rw [if_neg (not_le.mpr h)]

theorem tsc_fail_ge (oracle : Oracle) (cond : Cond) (u : Utl)
    (hopt : (oracle u.s).optimal = true) (hmax : cond.is_max_threshold = true)
    (hch : cond.change = false)
    (h : (test_single_condition oracle cond false u).1 = false) :
    cond.threshold ≤ (oracle u.s).value := by
  by_contra hc
  rw [(tsc_pass_iff oracle cond u hopt hmax hch).mpr (not_le.mp hc)] at h
  simp at h

theorem coordGet_setBound (it : RItem) (v : ℚ) (s : MState) (k : Nat × Bool) :
    coordGet k (setBound it v s) = if k = itKey it then v else coordGet k s := by
  rcases k with ⟨r, d⟩
  by_cases hd : d = it.dir
  · by_cases hr : r = it.rid
    · subst hd; subst hr
      cases hdir : it.dir <;>
        simp [coordGet, setBound, itKey, hdir, updQ_same]
    · cases hdir : it.dir <;> cases hd' : d <;>
        simp_all [coordGet, setBound, itKey, updQ_other, hr]
  · cases hdir : it.dir <;> cases hd' : d <;>
      simp_all [coordGet, setBound, itKey]

theorem setBound_obj (it : RItem) (v : ℚ) (s : MState) :
    (setBound it v s).obj = s.obj ∧ (setBound it v s).objMax = s.objMax ∧
      (setBound it v s).media = s.media := by
  cases h : it.dir <;> simp [setBound, h]

theorem zeroItems_obj (L : List RItem) (s : MState) :
    (zeroItems L s).obj = s.obj ∧ (zeroItems L s).objMax = s.objMax ∧
      (zeroItems L s).media = s.media := by
  induction L generalizing s with
  | nil => exact ⟨rfl, rfl, rfl⟩
  | cons it rest ih =>
    have h1 := setBound_obj it 0 s
    have h2 := ih (zeroItem it s)
    simp only [zeroItems, List.foldl] at h2 ⊢
    exact ⟨h2.1.trans h1.1, h2.2.1.trans h1.2.1, h2.2.2.trans h1.2.2⟩

theorem coordGet_zeroItems (L : List RItem) (s : MState) (k : Nat × Bool) :
    coordGet k (zeroItems L s) =
      if k ∈ L.map itKey then 0 else coordGet k s := by
  induction L generalizing s with
  | nil => simp [zeroItems]
  | cons it rest ih =>
    have hstep : zeroItems (it :: rest) s = zeroItems rest (zeroItem it s) := rfl
    rw [hstep, ih]
    by_cases hk : k ∈ rest.map itKey
    · simp [hk]
    · by_cases he : k = itKey it
      · simp [hk, he, zeroItem, coordGet_setBound]
      · simp [hk, he, zeroItem, coordGet_setBound]

theorem restoreItems_obj (L : List RItem) (saved : List ℚ) (s : MState) :
    (restoreItems L saved s).obj = s.obj ∧
      (restoreItems L saved s).objMax = s.objMax ∧
      (restoreItems L saved s).media = s.media := by
  induction L generalizing saved s with
  | nil => exact ⟨rfl, rfl, rfl⟩
  | cons it rest ih =>
    cases saved with
    | nil => exact ⟨rfl, rfl, rfl⟩
    | cons v vs =>
      have h1 := setBound_obj it v s
      have h2 := ih vs (setBound it v s)
      simp only [restoreItems, List.zip, List.zipWith, List.foldl] at h2 ⊢
      exact ⟨h2.1.trans h1.1, h2.2.1.trans h1.2.1, h2.2.2.trans h1.2.2⟩

/-- Characterization of restoring a nodup item list to bounds read off a
reference state: listed coordinates come back from the reference, the
rest is untouched. -/
theorem coordGet_restoreItems (L : List RItem) (sref s : MState)
    (hnd : (L.map itKey).Nodup) (k : Nat × Bool) :
    coordGet k (restoreItems L (L.map (fun it => coordGet (itKey it) sref)) s) =
      if k ∈ L.map itKey then coordGet k sref else coordGet k s := by
  induction L generalizing s with
  | nil => simp [restoreItems]
  | cons it rest ih =>
    have hnd' : (rest.map itKey).Nodup := (List.nodup_cons.mp hnd).2
    have hni : itKey it ∉ rest.map itKey := (List.nodup_cons.mp hnd).1
    have hstep :
        restoreItems (it :: rest)
            ((it :: rest).map (fun i => coordGet (itKey i) sref)) s =
          restoreItems rest (rest.map (fun i => coordGet (itKey i) sref))
            (setBound it (coordGet (itKey it) sref) s) := rfl
    rw [hstep, ih _ hnd']
    by_cases hk : k ∈ rest.map itKey
    · have : k ≠ itKey it := fun he => hni (he ▸ hk)
      simp [hk, this]
    · by_cases he : k = itKey it
      · simp [hk, he, coordGet_setBound]
      · simp [hk, he, coordGet_setBound]

/-- `setBound` with the value the reference state already holds there,
applied to a state that differs from the reference only at that
coordinate, yields the reference state (exact single-knockout undo). -/
theorem updQ_updQ (f : Nat → ℚ) (i : Nat) (a b : ℚ) :
    updQ (updQ f i a) i b = updQ f i b := by
  funext j
  by_cases hj : j = i <;> simp [updQ, hj]

theorem setBound_restore (it : RItem) (s : MState) :
    setBound it (getBound it s) (zeroItem it s) = s := by
  cases h : it.dir <;>
    simp [setBound, zeroItem, getBound, h, updQ_self, updQ_updQ]

theorem getBound_eq_coordGet (it : RItem) (s : MState) :
    getBound it s = coordGet (itKey it) s := rfl

theorem coordGet_apply (k : Nat × Bool) (cond : Cond) (s : MState) :
    coordGet k (apply_test_condition cond s) = coordGet k s := rfl

theorem insertByScore_perm (f : RItem → ℚ) (it : RItem) (l : List RItem) :
    (insertByScore f it l).Perm (it :: l) := by
  induction l with
  | nil => exact List.Perm.refl _
  | cons x xs ih =>
    by_cases h : f it < f x
    · simp [insertByScore, h]
    · simp only [insertByScore, h, ite_false]
      exact (List.Perm.cons x ih).trans (List.Perm.swap it x xs)

theorem sortByScore_perm (f : RItem → ℚ) (L : List RItem) :
    (sortByScore f L).Perm L := by
  induction L with
  | nil => exact List.Perm.refl _
  | cons x xs ih =>
    exact (insertByScore_perm f x (sortByScore f xs)).trans (List.Perm.cons x ih)

/-- Knocking out two lists with the same key membership yields the same
state. -/
theorem zeroItems_congr (L1 L2 : List RItem) (s : MState)
    (h : ∀ k, k ∈ L1.map itKey ↔ k ∈ L2.map itKey) :
    zeroItems L1 s = zeroItems L2 s := by
  apply MState.eq_of_fields
  · intro r
    rw [show (zeroItems L1 s).lb r = coordGet (r, false) (zeroItems L1 s) from
        rfl,
      show (zeroItems L2 s).lb r = coordGet (r, false) (zeroItems L2 s) from
        rfl,
      coordGet_zeroItems, coordGet_zeroItems]
    simp [h (r, false)]
  · intro r
    rw [show (zeroItems L1 s).ub r = coordGet (r, true) (zeroItems L1 s) from
        rfl,
      show (zeroItems L2 s).ub r = coordGet (r, true) (zeroItems L2 s) from rfl,
      coordGet_zeroItems, coordGet_zeroItems]
    simp [h (r, true)]
  · exact (zeroItems_obj L1 s).1.trans (zeroItems_obj L2 s).1.symm
  · exact (zeroItems_obj L1 s).2.1.trans (zeroItems_obj L2 s).2.1.symm
  · exact (zeroItems_obj L1 s).2.2.trans (zeroItems_obj L2 s).2.2.symm

/-!  Claim theorems. -/

theorem lb_coord (s : MState) (r : Nat) : s.lb r = coordGet (r, false) s :=
  rfl

theorem ub_coord (s : MState) (r : Nat) : s.ub r = coordGet (r, true) s :=
  rfl

/-- Knocking out two lists in sequence equals knocking out their union
(membership-wise), pointwise. -/
theorem zeroItems_zeroItems (L1 L2 L : List RItem) (s : MState)
    (hmem : ∀ k, k ∈ L.map itKey ↔
      (k ∈ L1.map itKey ∨ k ∈ L2.map itKey)) :
    zeroItems L1 (zeroItems L2 s) = zeroItems L s := by
  apply MState.eq_of_fields
  · intro r
    rw [lb_coord, lb_coord, coordGet_zeroItems, coordGet_zeroItems,
      coordGet_zeroItems]
    by_cases h1 : (r, false) ∈ L1.map itKey <;>
      by_cases h2 : (r, false) ∈ L2.map itKey <;>
      simp [h1, h2, hmem (r, false)]
  · intro r
    rw [ub_coord, ub_coord, coordGet_zeroItems, coordGet_zeroItems,
      coordGet_zeroItems]
    by_cases h1 : (r, true) ∈ L1.map itKey <;>
      by_cases h2 : (r, true) ∈ L2.map itKey <;>
      simp [h1, h2, hmem (r, true)]
  · exact ((zeroItems_obj L1 _).1.trans (zeroItems_obj L2 s).1).trans
      (zeroItems_obj L s).1.symm
  · exact ((zeroItems_obj L1 _).2.1.trans (zeroItems_obj L2 s).2.1).trans
      (zeroItems_obj L s).2.1.symm
  · exact ((zeroItems_obj L1 _).2.2.trans (zeroItems_obj L2 s).2.2).trans
      (zeroItems_obj L s).2.2.symm

theorem normalBounds_zeroItems (L : List RItem) (s : MState)
    (h : normalBounds s) : normalBounds (zeroItems L s) := by
  intro r
  constructor
  · rw [lb_coord, coordGet_zeroItems]
    by_cases hk : (r, false) ∈ L.map itKey
    · simp [hk]
    · simpa [hk] using (h r).1
  · rw [ub_coord, coordGet_zeroItems]
    by_cases hk : (r, true) ∈ L.map itKey
    · simp [hk]
    · simpa [hk] using (h r).2

theorem take_drop_key_mem (L : List RItem) (m : Nat) (k : Nat × Bool) :
    k ∈ L.map itKey ↔
      (k ∈ (L.take m).map itKey ∨ k ∈ (L.drop m).map itKey) := by
  rw [show L.map itKey = (L.take m).map itKey ++ (L.drop m).map itKey from by
    rw [← List.map_append, List.take_append_drop]]
  exact List.mem_append

theorem take_key_nodup (L : List RItem) (m : Nat)
    (h : (L.map itKey).Nodup) : ((L.take m).map itKey).Nodup := by
  rw [List.map_take]
  exact h.sublist (List.take_sublist m _)

theorem drop_key_nodup (L : List RItem) (m : Nat)
    (h : (L.map itKey).Nodup) : ((L.drop m).map itKey).Nodup := by
  rw [List.map_drop]
  exact h.sublist (List.drop_sublist m _)

theorem take_drop_key_disjoint (L : List RItem) (m : Nat)
    (h : (L.map itKey).Nodup) (k : Nat × Bool)
    (h1 : k ∈ (L.take m).map itKey) (h2 : k ∈ (L.drop m).map itKey) :
    False := by
  rw [List.map_take] at h1
  rw [List.map_drop] at h2
  have := (List.nodup_append.mp
    ((List.take_append_drop m (L.map itKey)) ▸ h)).2.2
  exact this h1 h2

theorem setBound_subState (it : RItem) (v : ℚ) {t s : MState}
    (h : subState t s) : subState (setBound it v t) (setBound it v s) := by
  obtain ⟨ho, hd, hm, hb⟩ := h
  refine ⟨?_, ?_, ?_, ?_⟩
  · rw [(setBound_obj it v t).1, (setBound_obj it v s).1]; exact ho
  · rw [(setBound_obj it v t).2.1, (setBound_obj it v s).2.1]; exact hd
  · rw [(setBound_obj it v t).2.2, (setBound_obj it v s).2.2]; exact hm
  · intro r
    constructor
    · rw [lb_coord (setBound it v s) r, lb_coord (setBound it v t) r,
        coordGet_setBound, coordGet_setBound]
      by_cases hk : (r, false) = itKey it
      · simp [hk]
      · simpa [hk] using (hb r).1
    · rw [ub_coord (setBound it v s) r, ub_coord (setBound it v t) r,
        coordGet_setBound, coordGet_setBound]
      by_cases hk : (r, true) = itKey it
      · simp [hk]
      · simpa [hk] using (hb r).2

/-- Claim C10: `apply_test_condition` always sets the objective
direction to "max", for every condition including those with
`is_max_threshold = false`, so the oracle never minimizes for a test
condition; consequently `test_single_condition` (with the condition
applied) compares the threshold against an objective value computed in
a maximized state. -/
theorem apply_test_condition_always_max (cond : Cond) (s : MState)
    (oracle : Oracle) (u : Utl) :
    (apply_test_condition cond s).objMax = true ∧
      (test_single_condition oracle cond true u).2.s.objMax = true := by
  refine ⟨rfl, ?_⟩
  rw [tsc_s_apply]
  rfl

/-- Claim C6: for a condition whose solve ends with optimal status,
`test_single_condition` returns `False` exactly when the (possibly
change-adjusted) objective value is at or above the threshold in max
mode, or at or below the threshold otherwise — equality fails in both
modes — and returns `True` otherwise. -/
theorem tsc_false_iff_threshold (oracle : Oracle) (cond : Cond) (ap : Bool)
    (u : Utl)
    (hopt : (oracle (if ap then apply_test_condition cond u.s
      else u.s)).optimal = true) :
    (test_single_condition oracle cond ap u).1 = false ↔
      (cond.threshold ≤ adjustedValue oracle cond ap u ∧
        cond.is_max_threshold = true) ∨
      (adjustedValue oracle cond ap u ≤ cond.threshold ∧
        cond.is_max_threshold = false) := by
  have key : ∀ (C1 C2 : Prop) [Decidable C1] [Decidable C2] (x y z : Utl),
      ((if C1 then (false, x) else if C2 then (false, y)
        else (true, z)) : Bool × Utl).1 = false ↔ (C1 ∨ C2) := by
    intro C1 C2 _ _ x y z
    split_ifs <;> simp [*]
  simp only [test_single_condition, hopt, Bool.true_eq_false, if_false,
    ite_false]
  rw [key]
  exact Iff.rfl

/-- Witness for C6 at a concrete input: reaction 0 active drives the
objective to 1 ≥ threshold 1 in max mode, so the test returns `False`. -/
theorem tsc_false_iff_threshold_witness :
    (mtOracle (if true then apply_test_condition mtCond (mkUtl ubOne).s
      else (mkUtl ubOne).s)).optimal = true ∧
    ((test_single_condition mtOracle mtCond true (mkUtl ubOne)).1 = false ↔
      (mtCond.threshold ≤ adjustedValue mtOracle mtCond true (mkUtl ubOne) ∧
        mtCond.is_max_threshold = true) ∨
      (adjustedValue mtOracle mtCond true (mkUtl ubOne) ≤ mtCond.threshold ∧
        mtCond.is_max_threshold = false)) :=
  ⟨by decide, tsc_false_iff_threshold mtOracle mtCond true (mkUtl ubOne)
    (by decide)⟩

/-- Claim C3 counterexample: the condition passes with the whole input
reaction set absent (reaction 0 knocked out), yet `binary_expansion_test`
does not return the empty list — it runs on the current (active) bounds,
finds the condition broken, and filters reaction 0. -/
theorem binary_empty_on_absent_pass_cex :
    (test_single_condition mtOracle mtCond true
        { mkUtl ubOne with s := zeroItems [⟨0, true⟩] (mkState ubOne) }).1
      = true ∧
    (binary_expansion_test mtOracle mtCond [] [⟨0, true⟩] (mkUtl ubOne)).1
      ≠ [] := by decide

/-- Claim C3 as amended: `binary_expansion_test` returns the empty list,
filters nothing, and leaves the model state unchanged whenever the
condition already passes with the reaction set at its current entry
bounds (when driven by `reaction_expansion_test`, with the whole
candidate set present). -/
theorem binary_empty_on_entry_pass (oracle : Oracle) (cond : Cond)
    (pos : List Cond) (L : List RItem) (u : Utl)
    (h : (test_single_condition oracle cond false u).1 = true) :
    (binary_expansion_test oracle cond pos L u).1 = [] ∧
      (binary_expansion_test oracle cond pos L u).2.s = u.s := by
  have hstep : binary_expansion_test oracle cond pos L u =
      ([], (test_single_condition oracle cond false u).2) := by
    rw [binary_expansion_test, binaryAux.eq_def]
    simp only [h, ite_true, if_true]
  rw [hstep]
  exact ⟨rfl, tsc_s_noapply oracle cond u⟩

/-- Witness for the amended C3: a threshold-2 max condition passes with
reaction 0 active at objective 1, so nothing is filtered. -/
theorem binary_empty_on_entry_pass_witness :
    (test_single_condition mtOracle mtCondHi false (mkUtl ubOne)).1 = true ∧
    ((binary_expansion_test mtOracle mtCondHi [] [⟨0, true⟩]
        (mkUtl ubOne)).1 = [] ∧
      (binary_expansion_test mtOracle mtCondHi [] [⟨0, true⟩]
        (mkUtl ubOne)).2.s = (mkUtl ubOne).s) :=
  ⟨by decide, binary_empty_on_entry_pass mtOracle mtCondHi [] [⟨0, true⟩]
    (mkUtl ubOne) (by decide)⟩

/-- Claim C7 counterexample: with the scenario oracle (objective 1.0
whenever R1 is active, 0.0 when both R1 and R2 are zeroed) and the
condition {is_max_threshold: False, threshold: 1.0},
`binary_expansion_test([R1, R2])` does not return `[R1]`. -/
theorem scenario_r1_r2_cex :
    ((binary_expansion_test scOracle scCond [] [⟨1, true⟩, ⟨2, true⟩]
        (mkUtl ubTwo)).1.map FItem.rid) ≠ [1] := by decide

/-- Claim C7 as amended: with the stated oracle and condition the test
can never pass — the objective never strictly exceeds the threshold 1.0,
and a fail-low test fails on equality — so both candidates are filtered:
the result is exactly [R1, R2]. -/
theorem scenario_r1_r2_result :
    ((binary_expansion_test scOracle scCond [] [⟨1, true⟩, ⟨2, true⟩]
        (mkUtl ubTwo)).1.map FItem.rid) = [1, 2] := by decide

/-- Claim C4 counterexample: the condition fails with the full candidate
set present (reaction 0 active pushes the objective to the max
threshold), which per the claim means "no solution exists with the full
candidate set present"; yet `reaction_expansion_test` does not return
the `None` sentinel — its existence check runs with the candidate set
absent, passes, and the search returns a filtered list. -/
theorem reaction_expansion_sentinel_cex :
    (test_single_condition mtOracle mtCond true (mkUtl ubOne)).1 = false ∧
    (reaction_expansion_test mtOracle [⟨0, true⟩] [mtCond] [] false
        (fun _ => 0) (mkUtl ubOne)).1 ≠ none := by decide

/-- Restore characterization restated with `getBound`-read saved values
(definitional repackaging of `coordGet_restoreItems`). -/
theorem coordGet_restoreItems_getBound (L : List RItem) (sref s : MState)
    (hnd : (L.map itKey).Nodup) (k : Nat × Bool) :
    coordGet k (restoreItems L (L.map (fun it => getBound it sref)) s) =
      if k ∈ L.map itKey then coordGet k sref else coordGet k s :=
  coordGet_restoreItems L sref s hnd k

/-- Claim C4 as amended: for a single condition, when the condition test
fails with the whole candidate set absent (every listed bound zeroed),
`reaction_expansion_test` returns the `None` sentinel and every reaction
bound equals its pre-call value (the existence check restores what it
zeroed). -/
theorem reaction_expansion_sentinel_on_absent_fail (oracle : Oracle)
    (L : List RItem) (cond : Cond) (pos : List Cond) (resort : Bool)
    (scores : RItem → ℚ) (u : Utl) (hnd : (L.map itKey).Nodup)
    (h : (test_single_condition oracle cond true
        { u with s := zeroItems L u.s, breaking_reaction := none }).1
      = false) :
    (reaction_expansion_test oracle L [cond] pos resort scores u).1 = none ∧
      ∀ r,
        (reaction_expansion_test oracle L [cond] pos resort scores
              u).2.s.lb r = u.s.lb r ∧
        (reaction_expansion_test oracle L [cond] pos resort scores
              u).2.s.ub r = u.s.ub r := by
  have hperm : (if resort then sortByScore scores L else L).Perm L := by
    cases resort <;> simp [sortByScore_perm]
  set rl := if resort then sortByScore scores L else L with hrl
  have hmem : ∀ k, k ∈ rl.map itKey ↔ k ∈ L.map itKey := fun k =>
    (hperm.map itKey).mem_iff
  have hndrl : (rl.map itKey).Nodup := ((hperm.map itKey).nodup_iff).mpr hnd
  have hz : zeroItems rl u.s = zeroItems L u.s := zeroItems_congr _ _ _ hmem
  have hchk : (check_if_solution_exists oracle rl cond
      { u with breaking_reaction := none }).1 = false := by
    simp only [check_if_solution_exists]
    exact (tsc_fst_congr oracle cond true
      { u with s := zeroItems rl u.s, breaking_reaction := none }
      { u with s := zeroItems L u.s, breaking_reaction := none }
      (by simpa using hz) rfl).trans h
  have hrun : reaction_expansion_test oracle L [cond] pos resort scores u =
      (none, (check_if_solution_exists oracle rl cond
        { u with breaking_reaction := none }).2) := by
    simp only [reaction_expansion_test, ← hrl, reactionExpansionGo, hchk,
      ite_true, if_true]
  rw [hrun]
  refine ⟨rfl, fun r => ?_⟩
  have key : ∀ k, coordGet k (check_if_solution_exists oracle rl cond
      { u with breaking_reaction := none }).2.s = coordGet k u.s := by
    intro k
    simp only [check_if_solution_exists]
    rw [tsc_s_apply, coordGet_restoreItems_getBound rl u.s _ hndrl]
    by_cases hk : k ∈ rl.map itKey
    · simp [hk]
    · simp only [hk, if_false, ite_false]
      rw [coordGet_apply, coordGet_zeroItems]
      simp [hk]
  exact ⟨key (r, false), key (r, true)⟩

/-- Witness for the amended C4: the always-infeasible oracle fails the
check (spec scenario), `reaction_expansion_test` returns `None`, and the
bounds of reaction 0 are back to their pre-call values. -/
theorem reaction_expansion_sentinel_on_absent_fail_witness :
    (test_single_condition infOracle mtCond true
        { mkUtl ubOne with
          s := zeroItems [⟨0, true⟩] (mkUtl ubOne).s,
          breaking_reaction := none }).1 = false ∧
    ((reaction_expansion_test infOracle [⟨0, true⟩] [mtCond] [] false
        (fun _ => 0) (mkUtl ubOne)).1 = none ∧
      ∀ r,
        (reaction_expansion_test infOracle [⟨0, true⟩] [mtCond] [] false
              (fun _ => 0) (mkUtl ubOne)).2.s.lb r = (mkUtl ubOne).s.lb r ∧
        (reaction_expansion_test infOracle [⟨0, true⟩] [mtCond] [] false
              (fun _ => 0) (mkUtl ubOne)).2.s.ub r = (mkUtl ubOne).s.ub r) :=
  ⟨by decide, reaction_expansion_sentinel_on_absent_fail infOracle [⟨0, true⟩]
    mtCond [] false (fun _ => 0) (mkUtl ubOne) (by decide) (by decide)⟩

/-- Claim C5 (code bug evidence): in Global mode, when every database
test passes but the merged multi-media LP solve ends non-optimal,
`run_global_gapfilling` returns the `None` sentinel and
`run_multi_gapfill` then calls `full_solution.copy()` on it without a
check, raising `AttributeError` instead of propagating `None`. -/
theorem run_multi_gapfill_global_crash :
    run_multi_gapfill crashEnv [0] 0 (fun _ => none) (fun _ => none) 1 false
      true true .global = .error () := by rfl

/-- Claim C2 counterexample: with objective 1 whenever R1 or R2 is
active and the single triple (target 5, media 9, threshold 1), zeroing
only R2 (R1 at its integrated bounds) keeps the objective at the
threshold, so per the claim R2 is unneeded; yet `test_solution` — which
leaves the previously-classified-unneeded R1 knocked out while testing
R2 — classifies R2 as needed and returns only R1. -/
theorem test_solution_isolated_cex :
    (1 : ℚ) ≤ (orOracle
      { lb := fun _ => 0, ub := updQ ubTwo 2 0, obj := 5, objMax := false,
        media := some 9 }).value ∧
    (test_solution orOracle solTwo [5] [9] [1] false []
        (mkState ubTwo)).unneeded.map UItem.rid = [1] := by decide

theorem specKnockList_append (K : List SItem) (it : SItem) (s : MState) :
    specKnockList (K ++ [it]) s = specKnock it (specKnockList K s) := by
  simp [specKnockList, List.foldl_append]

/-- The needed-reaction restore path is an exact undo of the knockout
when the saved values were read off the pre-knock state (single-triple
case). -/
theorem tsRestore_specKnock (it : SItem) (s : MState) :
    tsRestore it.rid it.dir
      (if it.dir then s.ub it.rid else s.lb it.rid)
      (if it.dir then
        (if 0 < s.lb it.rid then some (s.lb it.rid) else none)
       else (if s.ub it.rid < 0 then some (s.ub it.rid) else none))
      (specKnock it s) = s := by
  cases hd : it.dir
  · by_cases hc : s.ub it.rid < 0 <;>
      simp [tsRestore, specKnock, hd, hc, updQ_updQ, updQ_self]
  · by_cases hc : 0 < s.lb it.rid <;>
      simp [tsRestore, specKnock, hd, hc, updQ_updQ, updQ_self]

/-- One knockout iteration of `test_solution` (single-triple shape) in
terms of `specKnock`. -/
theorem tsTriple_eq_specKnock (oracle : Oracle) (it : SItem) (s : MState)
    (tmh : Nat × Nat × ℚ) :
    tsTriple oracle it false
        { s := s, needed := false, bound := none, other := none } tmh
      = { s := specKnock it s,
          needed := decide ((oracle (specKnock it s)).value < tmh.2.2),
          bound := some (if it.dir then s.ub it.rid else s.lb it.rid),
          other :=
            (if it.dir then
              (if 0 < s.lb it.rid then some (s.lb it.rid) else none)
             else (if s.ub it.rid < 0 then some (s.ub it.rid) else none)) } := by
  cases hd : it.dir <;> simp [tsTriple, specKnock, hd]

/-- Single-triple `test_solution` main loop against the sequential
cumulative classification: processing the remaining reactions from a
state in which the knocked-out set `K` is applied to the base state
appends exactly the spec classification to the accumulated unneeded
list. -/
theorem ts_fold_spec (oracle : Oracle) (t m : Nat) (th : ℚ) (sbase : MState) :
    ∀ (sol K : List SItem) (acc : List UItem),
    (List.foldl (fun (p : MState × List UItem) (it : SItem) =>
        let r := tsItem oracle [(t, (m, th))] false p.1 it
        (r.1, match r.2 with | some x => p.2 ++ [x] | none => p.2))
      (specKnockList K sbase, acc) sol).2.map (fun x => (x.rid, x.dir))
    = acc.map (fun x => (x.rid, x.dir)) ++ seqUnneeded oracle th sbase K sol
  | [], K, acc => by simp [seqUnneeded]
  | it :: rest, K, acc => by
    have hknock : tsItem oracle [(t, (m, th))] false (specKnockList K sbase) it
        = (if th ≤ (oracle (specKnock it (specKnockList K sbase))).value then
            (specKnock it (specKnockList K sbase),
             some ⟨it.rid, it.dir, it.tag,
               (if it.dir then (specKnockList K sbase).ub it.rid
                else (specKnockList K sbase).lb it.rid),
               (if it.dir then
                 (if 0 < (specKnockList K sbase).lb it.rid then
                   some ((specKnockList K sbase).lb it.rid) else none)
                else
                 (if (specKnockList K sbase).ub it.rid < 0 then
                   some ((specKnockList K sbase).ub it.rid) else none))⟩)
          else (specKnockList K sbase, none)) := by
      simp only [tsItem, List.foldl, tsTriple_eq_specKnock, Option.getD_some]
      by_cases hv : (oracle (specKnock it (specKnockList K sbase))).value < th
      · rw [if_pos (by simpa using hv), if_neg (not_le.mpr hv),
          tsRestore_specKnock]
      · rw [if_neg (by simpa using hv), if_pos (not_lt.mp hv)]
    by_cases hv : th ≤ (oracle (specKnock it (specKnockList K sbase))).value
    · rw [List.foldl_cons]
      simp only [hknock, hv, ite_true, if_true]
      rw [← specKnockList_append,
        ts_fold_spec oracle t m th sbase rest (K ++ [it])]
      simp [seqUnneeded, hv]
    · rw [List.foldl_cons]
      simp only [hknock, hv, ite_false, if_false]
      rw [ts_fold_spec oracle t m th sbase rest K]
      simp [seqUnneeded, hv]

/-- Claim C2 as amended: over a single (target, media, threshold)
triple, `test_solution` classifies a reaction as unneeded exactly per
the sequential cumulative rule — the reaction is knocked out on top of
every previously-classified-unneeded reaction (which stay knocked out),
and it is unneeded when the objective stays at or above the
threshold. -/
theorem test_solution_seq_classification (oracle : Oracle) (sol : List SItem)
    (t m : Nat) (th : ℚ) (remove : Bool) (dnr : List SItem) (s0 : MState) :
    (test_solution oracle sol [t] [m] [th] remove dnr s0).unneeded.map
        (fun x => (x.rid, x.dir))
      = seqUnneeded oracle th { s0 with obj := t, media := some m } []
          sol := by
  have base := ts_fold_spec oracle t m th
    { s0 with obj := t, media := some m } sol [] []
  simp only [specKnockList, List.foldl, List.map_nil, List.nil_append] at base
  simpa [test_solution] using base

theorem tsRestore_lb (rid : Nat) (dir : Bool) (b : ℚ) (o : Option ℚ)
    (s : MState) (r : Nat) :
    (tsRestore rid dir b o s).lb r =
      if r = rid then
        (if dir then (match o with | some v => v | none => s.lb r) else b)
      else s.lb r := by
  by_cases hr : r = rid
  · subst hr
    cases o <;> cases dir <;> simp [tsRestore, updQ_same]
  · cases o <;> cases dir <;> simp [tsRestore, updQ_other _ _ _ hr, hr]

theorem tsRestore_ub (rid : Nat) (dir : Bool) (b : ℚ) (o : Option ℚ)
    (s : MState) (r : Nat) :
    (tsRestore rid dir b o s).ub r =
      if r = rid then
        (if dir then b else (match o with | some v => v | none => s.ub r))
      else s.ub r := by
  by_cases hr : r = rid
  · subst hr
    cases o <;> cases dir <;> simp [tsRestore, updQ_same]
  · cases o <;> cases dir <;> simp [tsRestore, updQ_other _ _ _ hr, hr]

theorem tsRestore_obj (rid : Nat) (dir : Bool) (b : ℚ) (o : Option ℚ)
    (s : MState) :
    (tsRestore rid dir b o s).obj = s.obj ∧
      (tsRestore rid dir b o s).objMax = s.objMax ∧
      (tsRestore rid dir b o s).media = s.media := by
  cases o <;> cases dir <;> simp [tsRestore]

theorem specKnock_lb (it : SItem) (s : MState) (r : Nat) :
    (specKnock it s).lb r =
      if r = it.rid then
        (if it.dir then (if 0 < s.lb it.rid then 0 else s.lb it.rid) else 0)
      else s.lb r := by
  by_cases hr : r = it.rid
  · subst hr
    cases hd : it.dir <;> by_cases hc : 0 < s.lb it.rid <;>
      simp [specKnock, hd, hc, updQ_same]
  · cases hd : it.dir <;> by_cases hc : 0 < s.lb it.rid <;>
      simp [specKnock, hd, hc, updQ_other _ _ _ hr, hr]

theorem specKnock_ub (it : SItem) (s : MState) (r : Nat) :
    (specKnock it s).ub r =
      if r = it.rid then
        (if it.dir then 0 else (if s.ub it.rid < 0 then 0 else s.ub it.rid))
      else s.ub r := by
  by_cases hr : r = it.rid
  · subst hr
    cases hd : it.dir <;> by_cases hc : s.ub it.rid < 0 <;>
      simp [specKnock, hd, hc, updQ_same]
  · cases hd : it.dir <;> by_cases hc : s.ub it.rid < 0 <;>
      simp [specKnock, hd, hc, updQ_other _ _ _ hr, hr]

theorem specKnock_obj (it : SItem) (s : MState) :
    (specKnock it s).obj = s.obj ∧ (specKnock it s).objMax = s.objMax ∧
      (specKnock it s).media = s.media := by
  cases hd : it.dir <;> simp [specKnock, hd]

theorem specKnockList_obj (K : List SItem) (s : MState) :
    (specKnockList K s).obj = s.obj ∧
      (specKnockList K s).objMax = s.objMax ∧
      (specKnockList K s).media = s.media := by
  induction K generalizing s with
  | nil => exact ⟨rfl, rfl, rfl⟩
  | cons k ks ih =>
    have h1 := specKnock_obj k s
    have h2 := ih (specKnock k s)
    simp only [specKnockList, List.foldl] at h2 ⊢
    exact ⟨h2.1.trans h1.1, h2.2.1.trans h1.2.1, h2.2.2.trans h1.2.2⟩

/-- Knocking a list of solution reactions leaves the coordinates of any
reaction id outside the list untouched. -/
theorem specKnockList_frame (K : List SItem) (s : MState) (r : Nat)
    (h : r ∉ K.map SItem.rid) :
    (specKnockList K s).lb r = s.lb r ∧ (specKnockList K s).ub r = s.ub r := by
  induction K generalizing s with
  | nil => exact ⟨rfl, rfl⟩
  | cons k ks ih =>
    have hne : r ≠ k.rid := by
      intro he
      exact h (by simp [he])
    have hks : r ∉ ks.map SItem.rid := fun hm => h (by simp [hm])
    have h2 := ih (specKnock k s) hks
    simp only [specKnockList, List.foldl] at h2 ⊢
    rw [h2.1, h2.2, specKnock_lb, specKnock_ub, if_neg hne, if_neg hne]
    exact ⟨rfl, rfl⟩

/-- A restore and a knockout on a different reaction id commute. -/
theorem tsRestore_specKnock_comm (k : SItem) (rid : Nat) (dir : Bool)
    (b : ℚ) (o : Option ℚ) (s : MState) (h : rid ≠ k.rid) :
    tsRestore rid dir b o (specKnock k s) =
      specKnock k (tsRestore rid dir b o s) := by
  have hsk : (tsRestore rid dir b o s).lb k.rid = s.lb k.rid := by
    rw [tsRestore_lb, if_neg (Ne.symm h)]
  have hsu : (tsRestore rid dir b o s).ub k.rid = s.ub k.rid := by
    rw [tsRestore_ub, if_neg (Ne.symm h)]
  apply MState.eq_of_fields
  · intro r
    rw [tsRestore_lb rid dir b o (specKnock k s) r,
      specKnock_lb k (tsRestore rid dir b o s) r, hsk,
      tsRestore_lb rid dir b o s r, specKnock_lb k s r]
    by_cases h1 : r = rid
    · have h2 : ¬ r = k.rid := h1 ▸ h
      cases o <;> cases dir <;> simp [h1, h2, h]
    · by_cases h2 : r = k.rid
      · cases o <;> cases dir <;> simp [h1, h2, h, Ne.symm h]
      · cases o <;> cases dir <;> simp [h1, h2, h]
  · intro r
    rw [tsRestore_ub rid dir b o (specKnock k s) r,
      specKnock_ub k (tsRestore rid dir b o s) r, hsu,
      tsRestore_ub rid dir b o s r, specKnock_ub k s r]
    by_cases h1 : r = rid
    · have h2 : ¬ r = k.rid := h1 ▸ h
      cases o <;> cases dir <;> simp [h1, h2, h]
    · by_cases h2 : r = k.rid
      · cases o <;> cases dir <;> simp [h1, h2, h, Ne.symm h]
      · cases o <;> cases dir <;> simp [h1, h2, h]
  · exact ((tsRestore_obj _ _ _ _ _).1.trans (specKnock_obj _ _).1).trans
      (((specKnock_obj _ _).1.trans (tsRestore_obj _ _ _ _ _).1).symm)
  · exact ((tsRestore_obj _ _ _ _ _).2.1.trans (specKnock_obj _ _).2.1).trans
      (((specKnock_obj _ _).2.1.trans (tsRestore_obj _ _ _ _ _).2.1).symm)
  · exact ((tsRestore_obj _ _ _ _ _).2.2.trans (specKnock_obj _ _).2.2).trans
      (((specKnock_obj _ _).2.2.trans (tsRestore_obj _ _ _ _ _).2.2).symm)

/-- A restore commutes with knocking out a list of other reaction
ids. -/
theorem tsRestore_specKnockList_comm (K : List SItem) (rid : Nat)
    (dir : Bool) (b : ℚ) (o : Option ℚ) (s : MState)
    (h : rid ∉ K.map SItem.rid) :
    tsRestore rid dir b o (specKnockList K s) =
      specKnockList K (tsRestore rid dir b o s) := by
  induction K generalizing s with
  | nil => rfl
  | cons k ks ih =>
    have hne : rid ≠ k.rid := by
      intro he
      exact h (by simp [he])
    have hks : rid ∉ ks.map SItem.rid := fun hm => h (by simp [hm])
    show tsRestore rid dir b o (specKnockList ks (specKnock k s)) =
      specKnockList ks (specKnock k (tsRestore rid dir b o s))
    rw [ih (specKnock k s) hks, tsRestore_specKnock_comm k rid dir b o s hne]

/-- One solution reaction of `test_solution` over a single triple:
knock out, flag as needed when the objective drops strictly below the
threshold (and restore exactly), else leave knocked out and record the
pre-knock bounds. -/
theorem tsItem_single (oracle : Oracle) (t m : Nat) (th : ℚ) (S : MState)
    (it : SItem) :
    tsItem oracle [(t, (m, th))] false S it
      = (if th ≤ (oracle (specKnock it S)).value then
          (specKnock it S,
           some ⟨it.rid, it.dir, it.tag,
             (if it.dir then S.ub it.rid else S.lb it.rid),
             (if it.dir then
               (if 0 < S.lb it.rid then some (S.lb it.rid) else none)
              else (if S.ub it.rid < 0 then some (S.ub it.rid) else none))⟩)
        else (S, none)) := by
  simp only [tsItem, List.foldl, tsTriple_eq_specKnock, Option.getD_some]
  by_cases hv : (oracle (specKnock it S)).value < th
  · rw [if_pos (by simpa using hv), if_neg (not_le.mpr hv),
      tsRestore_specKnock]
  · rw [if_neg (by simpa using hv), if_pos (not_lt.mp hv)]

theorem specKnockList_nil (s : MState) : specKnockList [] s = s := rfl

theorem map_toS_rid (acc : List UItem) :
    (acc.map toS).map SItem.rid = acc.map UItem.rid := by
  simp [toS, List.map_map]

/-- State invariant of the single-triple `test_solution` main loop: from
a state where the accumulated unneeded reactions are knocked out of the
base state, the loop keeps the unneeded list duplicate-free, records
base-state restore data, and ends with exactly the unneeded reactions
knocked out. -/
theorem ts_fold_state (oracle : Oracle) (t m : Nat) (th : ℚ)
    (sbase : MState) (sol : List SItem) :
    ∀ (acc : List UItem), (sol.map SItem.rid).Nodup →
      (∀ x ∈ sol, x.rid ∉ acc.map UItem.rid) →
      (acc.map UItem.rid).Nodup → (∀ x ∈ acc, goodU sbase x) →
      ((List.foldl (fun (p : MState × List UItem) (it : SItem) =>
          let r := tsItem oracle [(t, (m, th))] false p.1 it
          (r.1, match r.2 with | some x => p.2 ++ [x] | none => p.2))
        (specKnockList (acc.map toS) sbase, acc) sol).2.map
          UItem.rid).Nodup ∧
      (∀ x ∈ (List.foldl (fun (p : MState × List UItem) (it : SItem) =>
          let r := tsItem oracle [(t, (m, th))] false p.1 it
          (r.1, match r.2 with | some x => p.2 ++ [x] | none => p.2))
        (specKnockList (acc.map toS) sbase, acc) sol).2, goodU sbase x) ∧
      (List.foldl (fun (p : MState × List UItem) (it : SItem) =>
          let r := tsItem oracle [(t, (m, th))] false p.1 it
          (r.1, match r.2 with | some x => p.2 ++ [x] | none => p.2))
        (specKnockList (acc.map toS) sbase, acc) sol).1
        = specKnockList ((List.foldl
            (fun (p : MState × List UItem) (it : SItem) =>
          let r := tsItem oracle [(t, (m, th))] false p.1 it
          (r.1, match r.2 with | some x => p.2 ++ [x] | none => p.2))
        (specKnockList (acc.map toS) sbase, acc) sol).2.map toS) sbase := by
  induction sol with
  | nil =>
    intro acc _ _ hand hgood
    exact ⟨hand, hgood, rfl⟩
  | cons it rest ih =>
    intro acc hnd hdisj hand hgood
    have hit : it.rid ∉ acc.map UItem.rid := hdisj it (by simp)
    have hitS : it.rid ∉ (acc.map toS).map SItem.rid := by
      rw [map_toS_rid]; exact hit
    have hframe := specKnockList_frame (acc.map toS) sbase it.rid hitS
    have hndr : (rest.map SItem.rid).Nodup := (List.nodup_cons.mp hnd).2
    have hhead : it.rid ∉ rest.map SItem.rid := (List.nodup_cons.mp hnd).1
    rw [List.foldl_cons]
    by_cases hv : th ≤ (oracle (specKnock it
        (specKnockList (acc.map toS) sbase))).value
    · have htos : toS (⟨it.rid, it.dir, it.tag,
          (if it.dir then sbase.ub it.rid else sbase.lb it.rid),
          (if it.dir then
            (if 0 < sbase.lb it.rid then some (sbase.lb it.rid) else none)
           else (if sbase.ub it.rid < 0 then some (sbase.ub it.rid)
             else none))⟩ : UItem) = it := by
        cases it; rfl
      have hknock := tsItem_single oracle t m th
        (specKnockList (acc.map toS) sbase) it
      simp only [hknock, hv, ite_true, if_true, hframe.1, hframe.2]
      have hcollapse : specKnock it (specKnockList (acc.map toS) sbase)
          = specKnockList ((acc ++ [(⟨it.rid, it.dir, it.tag,
              (if it.dir then sbase.ub it.rid else sbase.lb it.rid),
              (if it.dir then
                (if 0 < sbase.lb it.rid then some (sbase.lb it.rid) else none)
               else (if sbase.ub it.rid < 0 then some (sbase.ub it.rid)
                 else none))⟩ : UItem)]).map toS) sbase := by
        rw [List.map_append]
        simp only [List.map_cons, List.map_nil, htos]
        rw [specKnockList_append]
      rw [hcollapse]
      refine ih _ hndr ?_ ?_ ?_
      · intro x hx
        simp only [List.map_append, List.map_cons, List.map_nil,
          List.mem_append, List.mem_singleton]
        rintro (hxa | hxr)
        · exact hdisj x (by simp [hx]) hxa
        · exact hhead (hxr ▸ List.mem_map_of_mem SItem.rid hx)
      · simp only [List.map_append, List.map_cons, List.map_nil]
        refine List.Nodup.append hand (List.nodup_singleton _) ?_
        intro a ha hb
        simp only [List.mem_singleton] at hb
        subst hb
        exact hit ha
      · intro x hx
        rcases List.mem_append.mp hx with hxa | hxb
        · exact hgood x hxa
        · simp only [List.mem_singleton] at hxb
          subst hxb
          exact ⟨rfl, rfl⟩
    · have hknock := tsItem_single oracle t m th
        (specKnockList (acc.map toS) sbase) it
      simp only [hknock, hv, ite_false, if_false]
      exact ih acc hndr (fun x hx => hdisj x (by simp [hx])) hand hgood

/-- Folding the recorded restores over the unneeded list undoes exactly
the knockouts of the unneeded reactions. -/
theorem ts_restore_fold (sbase : MState) :
    ∀ (acc : List UItem), (acc.map UItem.rid).Nodup →
      (∀ x ∈ acc, goodU sbase x) →
      acc.foldl (fun a x => tsRestore x.rid x.dir x.bound x.other a)
        (specKnockList (acc.map toS) sbase) = sbase
  | [], _, _ => rfl
  | x :: rest, hnd, hgood => by
    have hx : x.rid ∉ rest.map UItem.rid := (List.nodup_cons.mp hnd).1
    have hxS : x.rid ∉ (rest.map toS).map SItem.rid := by
      rw [map_toS_rid]; exact hx
    have hgx := hgood x (by simp)
    have hknock : specKnockList ((x :: rest).map toS) sbase
        = specKnockList (rest.map toS) (specKnock (toS x) sbase) := rfl
    rw [List.foldl_cons, hknock,
      tsRestore_specKnockList_comm (rest.map toS) x.rid x.dir x.bound x.other
        (specKnock (toS x) sbase) hxS]
    have hundo : tsRestore x.rid x.dir x.bound x.other
        (specKnock (toS x) sbase) = sbase := by
      rw [hgx.1, hgx.2]
      exact tsRestore_specKnock (toS x) sbase
    rw [hundo]
    exact ts_restore_fold sbase rest (List.nodup_cons.mp hnd).2
      (fun y hy => hgood y (by simp [hy]))

/-- Claim C8 as amended: over a single (target, media, threshold)
triple, with `remove_unneeded_reactions=False`, no repeated reaction id
in the solution, and a medium set before the call, `test_solution`
restores the model completely: bounds, objective, objective direction
and medium all equal their pre-call values. -/
theorem test_solution_single_triple_transactional (oracle : Oracle)
    (sol : List SItem) (t m : Nat) (th : ℚ) (dnr : List SItem) (s0 : MState)
    (hnd : (sol.map SItem.rid).Nodup) (hsm : s0.media ≠ none) :
    (test_solution oracle sol [t] [m] [th] false dnr s0).s = s0 := by
  have hfold := ts_fold_state oracle t m th
    { s0 with obj := t, media := some m } sol [] hnd (by simp) (by simp)
    (by simp)
  simp only [List.map_nil, specKnockList_nil] at hfold
  have hrest := ts_restore_fold { s0 with obj := t, media := some m } _
    hfold.1 hfold.2.1
  rw [← hfold.2.2] at hrest
  simp only [test_solution, List.zip_cons_cons, List.zip_nil_right,
    List.foldl_cons, List.foldl_nil, List.length_cons, List.length_nil,
    Bool.false_eq_true, if_false, ite_false, ne_eq, hsm, not_false_iff,
    ite_true, if_true]
  have hdec : (decide ((1 : Nat) < 0 + 1)) = false := by decide
  simp only [hdec]
  rw [hrest]

/-- Witness for the amended C8: one reaction, one triple, constant
oracle; everything is restored. -/
theorem test_solution_single_triple_transactional_witness :
    (([⟨1, true, true⟩] : List SItem).map SItem.rid).Nodup ∧
    (mkStateM ubTwo).media ≠ none ∧
    (test_solution oneOracle [⟨1, true, true⟩] [5] [7] [1] false []
      (mkStateM ubTwo)).s = mkStateM ubTwo :=
  ⟨by decide, by decide,
   test_solution_single_triple_transactional oneOracle [⟨1, true, true⟩]
     5 7 1 [] (mkStateM ubTwo) (by decide) (by decide)⟩

/-- Claim C8 counterexample: with two (target, media, threshold) triples
and `remove_unneeded_reactions=False`, the bound of the single solution
reaction is knocked out once per triple and `original_bound` is
overwritten each time, so the recorded value is the knocked-out zero and
the final "restore" leaves the bound at 0 instead of its pre-call
100. -/
theorem test_solution_restore_cex :
    (mkState ubTwo).ub 1 = 100 ∧
    (test_solution oneOracle [⟨1, true, true⟩] [5, 5] [7, 8]
        [1, 1] false [] (mkState ubTwo)).s.ub 1 = 0 := by decide


theorem zeroItem_subState (it : RItem) (s : MState)
    (hnorm : normalBounds s) : subState (zeroItem it s) s := by
  refine ⟨(setBound_obj it 0 s).1, (setBound_obj it 0 s).2.1,
    (setBound_obj it 0 s).2.2, ?_⟩
  intro r
  constructor
  · rw [lb_coord (zeroItem it s) r, zeroItem, coordGet_setBound]
    by_cases hk : (r, false) = itKey it
    · rw [if_pos hk, lb_coord]
      exact (hnorm r).1
    · rw [if_neg hk, ← lb_coord]
  · rw [ub_coord (zeroItem it s) r, zeroItem, coordGet_setBound]
    by_cases hk : (r, true) = itKey it
    · rw [if_pos hk, ub_coord]
      exact (hnorm r).2
    · rw [if_neg hk, ← ub_coord]

/-- Core induction for the minimality analysis of
`binary_expansion_test` (empty positive-growth list, as driven by
`reaction_expansion_test`): under an always-optimal monotone oracle, a
max-threshold no-change condition, duplicate-free candidate keys, and a
condition that passes with every candidate knocked out, the search (a)
raises no breaking reaction, (b) preserves objective/direction/medium,
(c) filters only listed candidates recording their entry bounds, (d)
ends with exactly the filtered coordinates knocked out, (e) ends in a
configuration that passes the condition, and (f) leaves every filtered
reaction individually indispensable against the final configuration. -/
theorem binaryAux_minimality (oracle : Oracle) (cond : Cond)
    (hopt : alwaysOptimal oracle) (hmono : monotoneOracle oracle)
    (hmax : cond.is_max_threshold = true) (hch : cond.change = false) :
    ∀ (fuel : Nat) (L : List RItem) (u : Utl), L.length ≤ fuel →
      u.breaking_reaction = none → (L.map itKey).Nodup →
      normalBounds u.s →
      (oracle (zeroItems L u.s)).value < cond.threshold →
      ((binaryAux oracle cond [] fuel L u).2.breaking_reaction = none) ∧
      ((binaryAux oracle cond [] fuel L u).2.s.obj = u.s.obj ∧
        (binaryAux oracle cond [] fuel L u).2.s.objMax = u.s.objMax ∧
        (binaryAux oracle cond [] fuel L u).2.s.media = u.s.media) ∧
      (∀ f ∈ (binaryAux oracle cond [] fuel L u).1,
        (⟨f.rid, f.dir⟩ : RItem) ∈ L ∧
          f.bound = coordGet (f.rid, f.dir) u.s) ∧
      (∀ k, coordGet k (binaryAux oracle cond [] fuel L u).2.s =
        if k ∈ (binaryAux oracle cond [] fuel L u).1.map
            (fun f => (f.rid, f.dir)) then 0 else coordGet k u.s) ∧
      ((oracle (binaryAux oracle cond [] fuel L u).2.s).value <
        cond.threshold) ∧
      (∀ f ∈ (binaryAux oracle cond [] fuel L u).1,
        cond.threshold ≤ (oracle (setBound ⟨f.rid, f.dir⟩ f.bound
          (binaryAux oracle cond [] fuel L u).2.s)).value) := by
  intro fuel
  induction fuel with
  | zero =>
    intro L u hlen hbr hnd hnorm hsol
    have hL : L = [] := List.length_eq_zero.mp (Nat.le_zero.mp hlen)
    subst hL
    have hres : binaryAux oracle cond [] 0 [] u =
        ([], (test_single_condition oracle cond false u).2) := by
      rw [binaryAux.eq_def]
      simp only [ite_self]
    rw [hres]
    refine ⟨(tsc_breaking oracle cond false u).trans hbr, ?_, ?_, ?_, ?_, ?_⟩
    · rw [tsc_s_noapply]
      exact ⟨rfl, rfl, rfl⟩
    · intro f hf
      exact absurd hf (List.not_mem_nil f)
    · intro k
      rw [tsc_s_noapply]
      simp
    · rw [tsc_s_noapply]
      exact hsol
    · intro f hf
      exact absurd hf (List.not_mem_nil f)
  | succ f ih =>
    intro L u hlen hbr hnd hnorm hsol
    by_cases hpass : (test_single_condition oracle cond false u).1 = true
    · have hres : binaryAux oracle cond [] (f + 1) L u =
          ([], (test_single_condition oracle cond false u).2) := by
        rw [binaryAux.eq_def]
        simp only [hpass, ite_true, if_true]
      rw [hres]
      refine ⟨(tsc_breaking oracle cond false u).trans hbr, ?_, ?_, ?_, ?_,
        ?_⟩
      · rw [tsc_s_noapply]
        exact ⟨rfl, rfl, rfl⟩
      · intro fi hfi
        exact absurd hfi (List.not_mem_nil fi)
      · intro k
        rw [tsc_s_noapply]
        simp
      · rw [tsc_s_noapply]
        exact (tsc_pass_iff oracle cond u (hopt u.s) hmax hch).mp hpass
      · intro fi hfi
        exact absurd hfi (List.not_mem_nil fi)
    · have hf0 : (test_single_condition oracle cond false u).1 = false := by
        revert hpass
        cases (test_single_condition oracle cond false u).1 <;> simp
      cases L with
      | nil =>
        have hres : binaryAux oracle cond [] (f + 1) [] u =
            ([], (test_single_condition oracle cond false u).2) := by
          rw [binaryAux.eq_def]
          simp only [hf0, Bool.false_eq_true, if_false, ite_false]
        rw [hres]
        refine ⟨(tsc_breaking oracle cond false u).trans hbr, ?_, ?_, ?_, ?_,
          ?_⟩
        · rw [tsc_s_noapply]
          exact ⟨rfl, rfl, rfl⟩
        · intro fi hfi
          exact absurd hfi (List.not_mem_nil fi)
        · intro k
          rw [tsc_s_noapply]
          simp
        · rw [tsc_s_noapply]
          exact hsol
        · intro fi hfi
          exact absurd hfi (List.not_mem_nil fi)
      | cons a L1 =>
        cases L1 with
        | nil =>
          have hres : binaryAux oracle cond [] (f + 1) [a] u =
              ([⟨a.rid, a.dir,
                 getBound a (test_single_condition oracle cond false u).2.s,
                 (test_single_condition oracle cond false u).2.score⟩],
               { (test_single_condition oracle cond false u).2 with
                 s := zeroItem a
                   (test_single_condition oracle cond false u).2.s }) := by
            rw [binaryAux.eq_def]
            simp only [hf0, Bool.false_eq_true, if_false, ite_false,
              posGrowthLoop, List.length_nil, Nat.lt_irrefl, ite_true,
              if_true]
          rw [hres]
          have hsu : (test_single_condition oracle cond false u).2.s = u.s :=
            tsc_s_noapply oracle cond u
          have heta : (⟨a.rid, a.dir⟩ : RItem) = a := by cases a; rfl
          refine ⟨(tsc_breaking oracle cond false u).trans hbr, ?_, ?_, ?_,
            ?_, ?_⟩
          · rw [hsu]
            exact ⟨(setBound_obj a 0 u.s).1, (setBound_obj a 0 u.s).2.1,
              (setBound_obj a 0 u.s).2.2⟩
          · intro fi hfi
            rcases List.mem_singleton.mp hfi with rfl
            refine ⟨by rw [heta]; exact List.mem_singleton_self a, ?_⟩
            rw [hsu, getBound_eq_coordGet]
            rfl
          · intro k
            rw [hsu]
            show coordGet k (zeroItem a u.s) = _
            rw [zeroItem, coordGet_setBound]
            by_cases hk : k = itKey a
            · simp [hk, itKey]
            · have : ¬ k = (a.rid, a.dir) := hk
              simp only [List.map_cons, List.map_nil, List.mem_singleton,
                this, if_false, ite_false, if_neg hk]
          · rw [hsu]
            show (oracle (zeroItem a u.s)).value < cond.threshold
            have : zeroItems [a] u.s = zeroItem a u.s := rfl
            rw [← this]
            exact hsol
          · intro fi hfi
            rcases List.mem_singleton.mp hfi with rfl
            rw [hsu]
            show cond.threshold ≤ (oracle (setBound ⟨a.rid, a.dir⟩
              (getBound a u.s) (zeroItem a u.s))).value
            rw [heta, setBound_restore]
            exact tsc_fail_ge oracle cond u (hopt u.s) hmax hch hf0
        | cons b L2 =>
          have ht2s : (test_single_condition oracle cond false u).2.s = u.s :=
            tsc_s_noapply oracle cond u
          have ht2b : (test_single_condition oracle cond false
              u).2.breaking_reaction = none :=
            (tsc_breaking oracle cond false u).trans hbr
          set t2 : Utl := (test_single_condition oracle cond false u).2
            with ht2
          set m : Nat := (a :: b :: L2).length / 2 with hm
          set T1 : List RItem := (a :: b :: L2).take m with hT1
          set T2 : List RItem := (a :: b :: L2).drop m with hT2
          set u1 : Utl := { t2 with s := zeroItems T2 t2.s } with hu1
          set r1 := binaryAux oracle cond [] f T1 u1 with hr1
          -- arithmetic on the halving
          have hlenL : (a :: b :: L2).length = L2.length + 2 := by simp
          have hm1 : 1 ≤ m := by
            rw [hm, hlenL]
            omega
          have hmlt : m < (a :: b :: L2).length := by
            rw [hm]
            exact Nat.div_lt_self (by simp) (by norm_num)
          have hlen1 : T1.length ≤ f := by
            rw [hT1, List.length_take]
            have := Nat.le_of_lt_succ (Nat.lt_of_lt_of_le hmlt hlen)
            omega
          have hlen2 : T2.length ≤ f := by
            rw [hT2, List.length_drop]
            omega
          -- key bookkeeping
          have hmemTD := fun k => take_drop_key_mem (a :: b :: L2) m k
          have hdisjTD := fun k => take_drop_key_disjoint (a :: b :: L2) m
            hnd k
          have hnd1 : (T1.map itKey).Nodup := take_key_nodup _ m hnd
          have hnd2 : (T2.map itKey).Nodup := drop_key_nodup _ m hnd
          -- invariants of the first recursive call
          have hu1s : u1.s = zeroItems T2 u.s := by
            rw [hu1]
            show zeroItems T2 t2.s = zeroItems T2 u.s
            rw [ht2, ht2s]
          have hz12 : zeroItems T1 u1.s = zeroItems (a :: b :: L2) u.s := by
            rw [hu1s]
            exact zeroItems_zeroItems T1 T2 _ u.s hmemTD
          obtain ⟨ha1, hb1, hc1, hd1, he1, hf1⟩ := ih T1 u1 hlen1
            (by rw [hu1]; exact ht2b) hnd1
            (by rw [hu1s]; exact normalBounds_zeroItems T2 u.s hnorm)
            (by rw [hz12]; exact hsol)
          have hu1coord : ∀ k, coordGet k u1.s =
              if k ∈ T2.map itKey then 0 else coordGet k u.s := by
            intro k
            rw [hu1s, coordGet_zeroItems]
          have hF1T1 : ∀ fi ∈ r1.1, (fi.rid, fi.dir) ∈ T1.map itKey := by
            intro fi hfi
            have := (hc1 fi hfi).1
            exact List.mem_map_of_mem itKey this
          -- description of the state after the first call
          have hdesc1 : ∀ k, coordGet k r1.2.s =
              if k ∈ r1.1.map (fun fi => (fi.rid, fi.dir)) then 0
              else if k ∈ T2.map itKey then 0 else coordGet k u.s := by
            intro k
            rw [hd1 k, hu1coord k]
          -- second recursive call
          set u2 : Utl := { r1.2 with
            s := restoreItems T2 (T2.map (fun it => getBound it t2.s))
              r1.2.s } with hu2
          set r2 := binaryAux oracle cond [] f T2 u2 with hr2
          have hu2coord : ∀ k, coordGet k u2.s =
              if k ∈ T2.map itKey then coordGet k u.s
              else coordGet k r1.2.s := by
            intro k
            rw [hu2]
            show coordGet k (restoreItems T2
              (T2.map (fun it => getBound it t2.s)) r1.2.s) = _
            rw [ht2, ht2s, coordGet_restoreItems_getBound T2 u.s _ hnd2]
          have hnorm2 : normalBounds u2.s := by
            intro r
            constructor
            · rw [lb_coord, hu2coord]
              by_cases hk2 : (r, false) ∈ T2.map itKey
              · simpa [hk2] using (hnorm r).1
              · simp only [hk2, if_false, ite_false]
                rw [hdesc1]
                by_cases hkf : (r, false) ∈
                    r1.1.map (fun fi => (fi.rid, fi.dir))
                · simp [hkf]
                · simpa [hkf, hk2] using (hnorm r).1
            · rw [ub_coord, hu2coord]
              by_cases hk2 : (r, true) ∈ T2.map itKey
              · simpa [hk2] using (hnorm r).2
              · simp only [hk2, if_false, ite_false]
                rw [hdesc1]
                by_cases hkf : (r, true) ∈
                    r1.1.map (fun fi => (fi.rid, fi.dir))
                · simp [hkf]
                · simpa [hkf, hk2] using (hnorm r).2
          have hzu2 : zeroItems T2 u2.s = r1.2.s := by
            apply MState.eq_of_fields
            · intro r
              rw [lb_coord, lb_coord, coordGet_zeroItems]
              by_cases hk2 : (r, false) ∈ T2.map itKey
              · rw [if_pos hk2, hdesc1]
                by_cases hkf : (r, false) ∈
                    r1.1.map (fun fi => (fi.rid, fi.dir))
                · simp [hkf]
                · simp [hkf, hk2]
              · rw [if_neg hk2, hu2coord, if_neg hk2]
            · intro r
              rw [ub_coord, ub_coord, coordGet_zeroItems]
              by_cases hk2 : (r, true) ∈ T2.map itKey
              · rw [if_pos hk2, hdesc1]
                by_cases hkf : (r, true) ∈
                    r1.1.map (fun fi => (fi.rid, fi.dir))
                · simp [hkf]
                · simp [hkf, hk2]
              · rw [if_neg hk2, hu2coord, if_neg hk2]
            · exact (zeroItems_obj T2 u2.s).1.trans
                ((restoreItems_obj T2 _ r1.2.s).1)
            · exact (zeroItems_obj T2 u2.s).2.1.trans
                ((restoreItems_obj T2 _ r1.2.s).2.1)
            · exact (zeroItems_obj T2 u2.s).2.2.trans
                ((restoreItems_obj T2 _ r1.2.s).2.2)
          obtain ⟨ha2, hb2, hc2, hd2, he2, hf2⟩ := ih T2 u2 hlen2
            (by rw [hu2]; exact ha1) hnd2 hnorm2
            (by rw [hzu2]; exact he1)
          have hF2T2 : ∀ fi ∈ r2.1, (fi.rid, fi.dir) ∈ T2.map itKey := by
            intro fi hfi
            have := (hc2 fi hfi).1
            exact List.mem_map_of_mem itKey this
          -- the computed result
          have hres : binaryAux oracle cond [] (f + 1) (a :: b :: L2) u =
              (r1.1 ++ r2.1, r2.2) := by
            rw [binaryAux.eq_def]
            simp only [hf0, Bool.false_eq_true, if_false, ite_false]
            rw [← ht2, ← hm, ← hT1, ← hT2, ← hu1, ← hr1]
            rw [if_neg (show ¬ (r1.2.breaking_reaction ≠ none) from
              fun hh => hh ha1)]
          rw [hres]
          -- final description of the returned state
          have hdescF : ∀ k, coordGet k r2.2.s =
              if k ∈ (r1.1 ++ r2.1).map (fun fi => (fi.rid, fi.dir)) then 0
              else coordGet k u.s := by
            intro k
            rw [hd2 k, hu2coord k]
            by_cases hkf2 : k ∈ r2.1.map (fun fi => (fi.rid, fi.dir))
            · simp [hkf2]
            · by_cases hk2 : k ∈ T2.map itKey
              · have hkf1 : k ∉ r1.1.map (fun fi => (fi.rid, fi.dir)) := by
                  intro hmem
                  rcases List.mem_map.mp hmem with ⟨fi, hfi, hfe⟩
                  exact hdisjTD k (hfe ▸ hF1T1 fi hfi) hk2
                simp [hkf2, hk2, hkf1]
              · rw [if_neg hkf2, if_neg hk2, hdesc1 k]
                by_cases hkf1 : k ∈ r1.1.map (fun fi => (fi.rid, fi.dir))
                · simp [hkf1]
                · simp [hkf1, hkf2, hk2]
          -- pointwise relation between the two final states
          have hF1notT2 : ∀ k, k ∈ r1.1.map (fun fi => (fi.rid, fi.dir)) →
              k ∉ T2.map itKey := by
            intro k hk1 hk2
            rcases List.mem_map.mp hk1 with ⟨fi, hfi, hfe⟩
            exact hdisjTD k (hfe ▸ hF1T1 fi hfi) hk2
          have hF2T2k : ∀ k, k ∈ r2.1.map (fun fi => (fi.rid, fi.dir)) →
              k ∈ T2.map itKey := by
            intro k hk
            rcases List.mem_map.mp hk with ⟨fi, hfi, hfe⟩
            exact hfe ▸ hF2T2 fi hfi
          have hsub : subState r1.2.s r2.2.s := by
            have hobj2 : r2.2.s.obj = r1.2.s.obj :=
              hb2.1.trans (restoreItems_obj T2 _ r1.2.s).1
            have hdir2 : r2.2.s.objMax = r1.2.s.objMax :=
              hb2.2.1.trans (restoreItems_obj T2 _ r1.2.s).2.1
            have hmed2 : r2.2.s.media = r1.2.s.media :=
              hb2.2.2.trans (restoreItems_obj T2 _ r1.2.s).2.2
            refine ⟨hobj2.symm, hdir2.symm, hmed2.symm, ?_⟩
            intro r
            constructor
            · rw [lb_coord r2.2.s r, lb_coord r1.2.s r, hd2 (r, false),
                hu2coord (r, false)]
              by_cases hkf2 : (r, false) ∈
                  r2.1.map (fun fi => (fi.rid, fi.dir))
              · have hk2 := hF2T2k (r, false) hkf2
                have hkf1 := hF1notT2 (r, false)
                rw [if_pos hkf2, hdesc1 (r, false)]
                by_cases hkf1m : (r, false) ∈
                    r1.1.map (fun fi => (fi.rid, fi.dir))
                · simp [hkf1m]
                · simp [hkf1m, hk2]
              · rw [if_neg hkf2]
                by_cases hk2 : (r, false) ∈ T2.map itKey
                · rw [if_pos hk2, hdesc1 (r, false)]
                  have hkf1m : (r, false) ∉
                      r1.1.map (fun fi => (fi.rid, fi.dir)) :=
                    fun hmem => hF1notT2 (r, false) hmem hk2
                  rw [if_neg hkf1m, if_pos hk2, ← lb_coord]
                  exact (hnorm r).1
                · rw [if_neg hk2]
            · rw [ub_coord r2.2.s r, ub_coord r1.2.s r, hd2 (r, true),
                hu2coord (r, true)]
              by_cases hkf2 : (r, true) ∈
                  r2.1.map (fun fi => (fi.rid, fi.dir))
              · have hk2 := hF2T2k (r, true) hkf2
                rw [if_pos hkf2, hdesc1 (r, true)]
                by_cases hkf1m : (r, true) ∈
                    r1.1.map (fun fi => (fi.rid, fi.dir))
                · simp [hkf1m]
                · simp [hkf1m, hk2]
              · rw [if_neg hkf2]
                by_cases hk2 : (r, true) ∈ T2.map itKey
                · rw [if_pos hk2, hdesc1 (r, true)]
                  have hkf1m : (r, true) ∉
                      r1.1.map (fun fi => (fi.rid, fi.dir)) :=
                    fun hmem => hF1notT2 (r, true) hmem hk2
                  rw [if_neg hkf1m, if_pos hk2, ← ub_coord]
                  exact (hnorm r).2
                · rw [if_neg hk2]
          -- assembling the six conclusions
          refine ⟨ha2, ?_, ?_, ?_, he2, ?_⟩
          · have hzo := zeroItems_obj T2 t2.s
            have hro := restoreItems_obj T2
              (T2.map (fun it => getBound it t2.s)) r1.2.s
            refine ⟨?_, ?_, ?_⟩
            · rw [hb2.1]
              exact (hro.1.trans (hb1.1.trans (hzo.1.trans
                (by rw [ht2s]))))
            · rw [hb2.2.1]
              exact (hro.2.1.trans (hb1.2.1.trans (hzo.2.1.trans
                (by rw [ht2s]))))
            · rw [hb2.2.2]
              exact (hro.2.2.trans (hb1.2.2.trans (hzo.2.2.trans
                (by rw [ht2s]))))
          · intro fi hfi
            rcases List.mem_append.mp hfi with hf1m | hf2m
            · obtain ⟨hmem, hbd⟩ := hc1 fi hf1m
              refine ⟨List.take_subset m _ hmem, ?_⟩
              rw [hbd, hu1coord]
              have hk1 : (fi.rid, fi.dir) ∈ T1.map itKey := hF1T1 fi hf1m
              rw [if_neg (fun hk2 => hdisjTD (fi.rid, fi.dir) hk1 hk2)]
            · obtain ⟨hmem, hbd⟩ := hc2 fi hf2m
              refine ⟨List.drop_subset m _ hmem, ?_⟩
              rw [hbd, hu2coord]
              rw [if_pos (hF2T2 fi hf2m)]
          · exact hdescF
          · intro fi hfi
            rcases List.mem_append.mp hfi with hf1m | hf2m
            · have h1 := hf1 fi hf1m
              have hsb := setBound_subState ⟨fi.rid, fi.dir⟩ fi.bound hsub
              exact le_trans h1 (hmono _ _ hsb)
            · exact hf2 fi hf2m

/-- Claim C1 as amended: for a reaction list and max-threshold condition
accepted by the expansion search (the driver verified the condition
passes with every candidate knocked out), when the oracle always reports
optimal status and is monotone (shrinking bound intervals never raises
the objective), the condition has `change` off, candidate (reaction,
direction) pairs are distinct, and bounds are sign-normal: after
`binary_expansion_test` completes, the final configuration passes the
condition, every listed reaction is removable on top of all removed
reactions without breaking the condition, and every filtered reaction is
individually indispensable — restoring it against the final
configuration breaks the condition. -/
theorem binary_expansion_minimality (oracle : Oracle) (cond : Cond)
    (L : List RItem) (u : Utl) (hopt : alwaysOptimal oracle)
    (hmono : monotoneOracle oracle) (hmax : cond.is_max_threshold = true)
    (hch : cond.change = false) (hbr : u.breaking_reaction = none)
    (hnd : (L.map itKey).Nodup) (hnorm : normalBounds u.s)
    (hsol : (oracle (zeroItems L u.s)).value < cond.threshold) :
    ((oracle (binary_expansion_test oracle cond [] L u).2.s).value <
        cond.threshold) ∧
    (∀ it ∈ L, (oracle (zeroItem it
        (binary_expansion_test oracle cond [] L u).2.s)).value <
      cond.threshold) ∧
    (∀ f ∈ (binary_expansion_test oracle cond [] L u).1,
      cond.threshold ≤ (oracle (setBound ⟨f.rid, f.dir⟩ f.bound
        (binary_expansion_test oracle cond [] L u).2.s)).value) := by
  simp only [binary_expansion_test]
  obtain ⟨ha, hb, hc, hd, he, hf⟩ := binaryAux_minimality oracle cond hopt
    hmono hmax hch L.length L u le_rfl hbr hnd hnorm hsol
  refine ⟨he, ?_, hf⟩
  intro it _
  have hnormR : normalBounds
      (binary_expansion_test oracle cond [] L u).2.s := by
    simp only [binary_expansion_test]
    intro r
    constructor
    · rw [lb_coord, hd (r, false)]
      by_cases hk : (r, false) ∈ List.map (fun f => (f.rid, f.dir))
          (binaryAux oracle cond [] L.length L u).1
      · rw [if_pos hk]
      · rw [if_neg hk, ← lb_coord]
        exact (hnorm r).1
    · rw [ub_coord, hd (r, true)]
      by_cases hk : (r, true) ∈ List.map (fun f => (f.rid, f.dir))
          (binaryAux oracle cond [] L.length L u).1
      · rw [if_pos hk]
      · rw [if_neg hk, ← ub_coord]
        exact (hnorm r).2
  exact lt_of_le_of_lt (hmono _ _ (zeroItem_subState it _ hnormR)) he

theorem mtOracle_always_optimal : alwaysOptimal mtOracle := fun _ => rfl

theorem mtOracle_monotone : monotoneOracle mtOracle := by
  intro s t h
  show (if 0 < t.ub 0 then (1 : ℚ) else 0) ≤
    (if 0 < s.ub 0 then (1 : ℚ) else 0)
  by_cases ht : 0 < t.ub 0
  · rw [if_pos ht, if_pos (lt_of_lt_of_le ht (h.2.2.2 0).2)]
  · rw [if_neg ht]
    by_cases hs : 0 < s.ub 0 <;> simp [hs]

/-- Witness for the amended C1 at a concrete input: reaction 0 breaks
the max-threshold test, is filtered, and the conclusions hold. -/
theorem binary_expansion_minimality_witness :
    alwaysOptimal mtOracle ∧ monotoneOracle mtOracle ∧
    (mkUtl ubOne).breaking_reaction = none ∧
    (([⟨0, true⟩] : List RItem).map itKey).Nodup ∧
    normalBounds (mkUtl ubOne).s ∧
    (mtOracle (zeroItems [⟨0, true⟩] (mkUtl ubOne).s)).value
      < mtCond.threshold ∧
    (((mtOracle (binary_expansion_test mtOracle mtCond [] [⟨0, true⟩]
          (mkUtl ubOne)).2.s).value < mtCond.threshold) ∧
      (∀ it ∈ ([⟨0, true⟩] : List RItem), (mtOracle (zeroItem it
          (binary_expansion_test mtOracle mtCond [] [⟨0, true⟩]
            (mkUtl ubOne)).2.s)).value < mtCond.threshold) ∧
      (∀ f ∈ (binary_expansion_test mtOracle mtCond [] [⟨0, true⟩]
          (mkUtl ubOne)).1,
        mtCond.threshold ≤ (mtOracle (setBound ⟨f.rid, f.dir⟩ f.bound
          (binary_expansion_test mtOracle mtCond [] [⟨0, true⟩]
            (mkUtl ubOne)).2.s)).value)) :=
  ⟨mtOracle_always_optimal, mtOracle_monotone, rfl, by decide,
   fun r => by constructor <;> simp [mkUtl, mkState, ubOne] <;> split <;>
     norm_num,
   by decide,
   binary_expansion_minimality mtOracle mtCond [⟨0, true⟩] (mkUtl ubOne)
     mtOracle_always_optimal mtOracle_monotone rfl rfl rfl (by decide)
     (fun r => by constructor <;> simp [mkUtl, mkState, ubOne] <;> split <;>
       norm_num)
     (by decide)⟩

/-- Claim C1 counterexample: with the (non-monotone) oracle `nmOracle`
and a fail-low condition the search accepts the input (returns a
filtered list, here reactions 0 and 2), yet restoring filtered reaction
0 against the final configuration still passes the condition, so not
every filtered reaction is individually indispensable as the claim
states. -/
theorem reducer_minimality_cex :
    ((reaction_expansion_test nmOracle nmList [nmCond] [] false
        (fun _ => 0) (mkUtl ubFour)).1.getD []).map FItem.rid = [0, 2] ∧
    (reaction_expansion_test nmOracle nmList [nmCond] [] false
        (fun _ => 0) (mkUtl ubFour)).1 ≠ none ∧
    (test_single_condition nmOracle nmCond true
      { (reaction_expansion_test nmOracle nmList [nmCond] [] false
          (fun _ => 0) (mkUtl ubFour)).2 with
        s := setBound ⟨0, true⟩ 100
          (reaction_expansion_test nmOracle nmList [nmCond] [] false
            (fun _ => 0) (mkUtl ubFour)).2.s }).1 = true := by decide

end MSeed
